import Mathlib

/-!
Verification of the tukio workflow engine (dag.py, workflow.py).

The Python data structures are shallowly embedded:

* A DAG (tukio/dag.py) is an adjacency list.  A Python dict from node to a
  set of successors is modelled as an association list
  `List (Nat × List Nat)` whose keys are unique in every graph the library
  builds (dict semantics); reads and updates go through the first matching
  entry, and the successor set is a duplicate-free list kept in insertion
  order.  Node identities (Python object identities or task ids) are
  modelled as natural numbers.
* Python exceptions are modelled by explicit error values; a method that can
  raise returns an `Except` value or a pair of an optional error with the
  mutated object, when the mutation performed before raising is observable.
* The asyncio execution of a Workflow (workflow.py) is modelled as a state
  machine: a queue of started tasks whose done callback is still pending is
  processed in FIFO order, which mirrors the single-threaded event loop with
  the trivial task bodies used by the test suite.  Task bodies and task
  constructors are abstracted by a `Behavior` function from the task
  template id to an outcome, since the task holder classes live outside the
  engine.  The event broker is modelled as an event log; payloads carried by
  events are not modelled.
-/

/-! ## DAG (tukio/dag.py) -/

/-- A validation error message of tukio DAGValidationError. -/
inductive ValMsg where
  | noRoot
  | notAcyclic
  deriving DecidableEq, Repr

/-- Exceptions raised by the DAG methods of dag.py. -/
inductive DagErr where
  | keyError
  | valueError
  | dagValidation (msg : ValMsg)
  deriving DecidableEq, Repr

/-- The adjacency list: tukio stores a dict from node to a set of successor
nodes.  Keys are unique in every graph built through the API. -/
abbrev Graph : Type := List (Nat × List Nat)

/-- Whether the dict has the node as a key. -/
def hasKey (g : Graph) (n : Nat) : Bool :=
  g.any (fun e => e.1 == n)

/-- The successor list of a node: the dict read graph[n]; the empty list for
a missing key (callers guard with hasKey where Python would raise). -/
def lookupSucc (g : Graph) (n : Nat) : List Nat :=
  match g.find? (fun e => e.1 == n) with
  | some e => e.2
  | none => []

/-- In-place update of the successor set of one key, first matching entry
(dict entries are unique, so this is the dict write graph[n] = f graph[n]). -/
def updSucc (g : Graph) (n : Nat) (f : List Nat → List Nat) : Graph :=
  match g with
  | [] => []
  | e :: rest => if e.1 = n then (e.1, f e.2) :: rest else e :: updSucc rest n f

/-- Python set.add on the duplicate-free successor list. -/
def setAdd (l : List Nat) (v : Nat) : List Nat :=
  if v ∈ l then l else l ++ [v]

/-- DAG.predecessors: the keys whose successor set contains the node.
(Python also raises KeyError when the node is not a key of the graph; the
engine and the validator only call this on successors, which are keys in
every graph tukio builds, so that branch is not modelled.) -/
def predecessors (g : Graph) (n : Nat) : List Nat :=
  match g with
  | [] => []
  | e :: rest => if n ∈ e.2 then e.1 :: predecessors rest n else predecessors rest n

/-- The root set as computed inside DAG.root_nodes: all keys that appear in
no successor set. -/
def rootsOf (g : Graph) : List Nat :=
  (g.map (fun e => e.1)).filter (fun k => !(g.any (fun e => k ∈ e.2)))

/-- DAG.root_nodes: raises DAGValidationError when the root set is empty. -/
def root_nodes (g : Graph) : Except DagErr (List Nat) :=
  let r := rootsOf g
  if r.isEmpty then Except.error (DagErr.dagValidation ValMsg.noRoot) else Except.ok r

/-- The edge list of the graph (DAG.edges builds a set of pairs; only its
emptiness is ever inspected, so duplicates are immaterial). -/
def edgesList (g : Graph) : List (Nat × Nat) :=
  match g with
  | [] => []
  | e :: rest => e.2.map (fun s => (e.1, s)) ++ edgesList rest

/-- One iteration body of Kahn toposort: remove every outgoing edge of the
popped root r (DAG.delete_edge on the working copy) and collect the
successors that thereby lose their last predecessor. -/
def dropEdges (g : Graph) (r : Nat) : Graph × List Nat :=
  (lookupSucc g r).foldl
    (fun p node =>
      let g' := updSucc p.1 r (fun s => s.erase node)
      if predecessors g' node = [] then (g', p.2 ++ [node]) else (g', p.2))
    (g, [])

/-- The while loop of DAG._toposort, with explicit fuel (each iteration pops
one pending root; a node is enqueued at most once, so the fuel below
suffices).  Returns the residual working graph and the sorted nodes. -/
def kahnLoop : Nat → Graph → List Nat → List Nat → Graph × List Nat
  | 0, g, _, acc => (g, acc)
  | _ + 1, g, [], acc => (g, acc)
  | fuel + 1, g, r :: roots, acc =>
      let p := dropEdges g r
      kahnLoop fuel p.1 (roots ++ p.2) (acc ++ [r])

/-- Enough fuel for kahnLoop: one unit per node plus one per edge. -/
def kahnFuel (g : Graph) : Nat :=
  g.length + (g.map (fun e => e.2.length)).foldr (fun a b => a + b) 0 + 1

/-- DAG._toposort: Kahn algorithm on a working copy; raises when edges
remain, i.e. when the graph has a cycle. -/
def toposort (g : Graph) : Except DagErr (List Nat) :=
  match root_nodes g with
  | Except.error e => Except.error e
  | Except.ok roots =>
      if (edgesList (kahnLoop (kahnFuel g) g roots []).1).isEmpty then
        Except.ok (kahnLoop (kahnFuel g) g roots []).2
      else Except.error (DagErr.dagValidation ValMsg.notAcyclic)

/-- DAG.validate: root check then toposort. -/
def validate (g : Graph) : Except DagErr Unit :=
  match root_nodes g with
  | Except.error e => Except.error e
  | Except.ok _ =>
      match toposort g with
      | Except.error e => Except.error e
      | Except.ok _ => Except.ok ()

/-- DAG.is_valid. -/
def is_valid (g : Graph) : Bool :=
  match validate g with
  | Except.ok _ => true
  | Except.error _ => false

/-- DAG.add_node: raises ValueError when the node already exists, else adds
it with an empty successor set. -/
def add_node (g : Graph) (n : Nat) : Except DagErr Graph :=
  if hasKey g n then Except.error DagErr.valueError else Except.ok (g ++ [(n, [])])

/-- DAG.add_edge.  The Python method mutates the graph, so the model returns
the final graph together with the optional exception: a KeyError leaves the
graph untouched; a DAGValidationError is raised after the rollback
graph[predecessor].remove(successor); success keeps the inserted edge. -/
def add_edge (g : Graph) (u v : Nat) : Option DagErr × Graph :=
  if hasKey g u && hasKey g v then
    match validate (updSucc g u (fun s => setAdd s v)) with
    | Except.ok _ => (none, updSucc g u (fun s => setAdd s v))
    | Except.error e =>
        (some e, updSucc (updSucc g u (fun s => setAdd s v)) u (fun s => s.erase v))
  else
    (some DagErr.keyError, g)

/-- Every successor set of the graph is empty (the state right after the
node-creation pass of WorkflowTemplate.from_dict). -/
def allSuccEmpty (g : Graph) : Bool :=
  g.all (fun e => e.2.isEmpty)

/-- The graph has no cycle: the Kahn deletion loop, started from the root
set, consumes every edge.  This is exactly the acyclicity test performed by
DAG._toposort, detached from the root-existence check so that it is also
meaningful for graphs without edges. -/
def noCycle (g : Graph) : Bool :=
  (edgesList (kahnLoop (kahnFuel g) g (rootsOf g) []).1).isEmpty

/-! ## WorkflowTemplate (tukio/workflow.py)

WorkflowTemplate.from_dict adds one DAG node per entry of the tasks list
(the nodes are TaskTemplate objects, distinct even when two task dicts carry
the same id; they are modelled by their position in the tasks list), builds
task_ids as a dict from task id to the last template carrying that id, and
then adds one edge per graph entry through DAG.add_edge.  The uid, policy
and topics fields play no part in the claims about the DAG and are not
modelled; TaskTemplate.from_dict itself lives outside the engine sources and
is modelled as a record holding the task id and name verbatim. -/

/-- A task dict of the declarative template form (id and name; names are
modelled as numbers like every identity). -/
structure TaskDict where
  id : Nat
  name : Nat
  deriving DecidableEq, Repr

/-- The declarative form consumed by WorkflowTemplate.from_dict, reduced to
the fields that build the DAG. -/
structure WfDict where
  tasks : List TaskDict
  graph : List (Nat × List Nat)
  deriving DecidableEq, Repr

/-- The parsed template: its DAG (over task positions) and the task_ids
dict from declared task id to DAG node. -/
structure WorkflowTmpl where
  dagGraph : Graph
  taskIds : List (Nat × Nat)
  deriving DecidableEq, Repr

/-- Errors raised while building a workflow template. -/
inductive WfErr where
  | dagErr (e : DagErr)
  | templateGraphError (key : Nat)
  deriving DecidableEq, Repr

/-- Dict write with overwrite (task_ids[uid] = task template). -/
def dictUpd (l : List (Nat × Nat)) (k v : Nat) : List (Nat × Nat) :=
  match l with
  | [] => [(k, v)]
  | e :: rest => if e.1 = k then (e.1, v) :: rest else e :: dictUpd rest k v

/-- Dict read (task_ids[uid]; none models the KeyError branch). -/
def dictGet (l : List (Nat × Nat)) (k : Nat) : Option Nat :=
  match l.find? (fun e => e.1 == k) with
  | some e => some e.2
  | none => none

/-- The tasks pass of from_dict: one DAG node per task dict, numbered by
position, and the task_ids entry for it (later ids overwrite earlier). -/
def addTaskNodes : List TaskDict → Nat → Graph → List (Nat × Nat) →
    Except WfErr (Graph × List (Nat × Nat))
  | [], _, g, tids => Except.ok (g, tids)
  | td :: rest, idx, g, tids =>
      match add_node g idx with
      | Except.error e => Except.error (WfErr.dagErr e)
      | Except.ok g' => addTaskNodes rest (idx + 1) g' (dictUpd tids td.id idx)

/-- The inner loop of the graph pass: one edge per downstream id (a missing
id in task_ids raises TemplateGraphError, a DAG error propagates). -/
def linkTasks : Graph → List (Nat × Nat) → Nat → List Nat → Except WfErr Graph
  | g, _, _, [] => Except.ok g
  | g, tids, ui, d :: ds =>
      match dictGet tids d with
      | none => Except.error (WfErr.templateGraphError d)
      | some di =>
          match add_edge g ui di with
          | (some e, _) => Except.error (WfErr.dagErr e)
          | (none, g') => linkTasks g' tids ui ds

/-- The outer loop of the graph pass of from_dict. -/
def linkGraph : Graph → List (Nat × Nat) → List (Nat × List Nat) → Except WfErr Graph
  | g, _, [] => Except.ok g
  | g, tids, (up, downs) :: rest =>
      match dictGet tids up with
      | none => Except.error (WfErr.templateGraphError up)
      | some ui =>
          match linkTasks g tids ui downs with
          | Except.error e => Except.error e
          | Except.ok g' => linkGraph g' tids rest

/-- WorkflowTemplate.from_dict: tasks pass then graph pass.  Note that it
does not call WorkflowTemplate.validate. -/
def wtFromDict (w : WfDict) : Except WfErr WorkflowTmpl :=
  match addTaskNodes w.tasks 0 [] [] with
  | Except.error e => Except.error e
  | Except.ok (g, tids) =>
      match linkGraph g tids w.graph with
      | Except.error e => Except.error e
      | Except.ok g' => Except.ok { dagGraph := g', taskIds := tids }

/-! ## Workflow execution engine (tukio/workflow.py, class Workflow) -/

/-- The Python exception classes the engine distinguishes. -/
inductive Exc where
  | unknownTaskName
  | typeError
  | valueError
  | attributeError
  | keyError
  | rootTaskError
  | runtimeError
  | dagValidationError
  deriving DecidableEq, Repr

/-- The except clause of Workflow._new_task:
except (UnknownTaskName, TypeError, ValueError, AttributeError). -/
def caughtAtTaskCreation : Exc → Bool
  | Exc.unknownTaskName => true
  | Exc.typeError => true
  | Exc.valueError => true
  | Exc.attributeError => true
  | _ => false

/-- The terminal state of the workflow future: set_result(self.tasks),
set_exception(exc) or cancellation. -/
inductive WfResult where
  | finished (tasks : Finset Nat)
  | exception (e : Exc)
  | cancelled
  deriving DecidableEq

/-- The execution events dispatched on the reserved topic
(WorkflowExecState; payloads are not modelled). -/
inductive ExecEvent where
  | begin
  | wfEnd
  | error
  | progress
  deriving DecidableEq, Repr

/-- The behaviour of the task holders behind the registry: whether the
constructor of the holder for a template raises (and which exception), and
whether its execute body completes normally.  Modelled from the spec: the
task module is outside the engine sources; per its section 4.2 the factory
is invoked eagerly by new_task and a failure propagates to the engine. -/
structure Behavior where
  ctorExc : Nat → Option Exc
  bodyOk : Nat → Bool

/-- The mutable state of one Workflow instance plus the scheduler queue.
Tasks are identified by their template id (the engine starts at most one
task per template id, the key of _tasks_by_id).  The queue holds the started
tasks whose _run_next_tasks callback has not run yet, in completion order.
ctorFailures is a ghost log of the task creation failures, used only to
state properties about runs. -/
structure WState where
  tasks : Finset Nat
  tasksById : Finset Nat
  doneTasks : Finset Nat
  updatedNextTasks : List (Nat × List Nat)
  internalExc : Option Exc
  mustCancel : Bool
  result : Option WfResult
  cancelledTasks : Finset Nat
  queue : List Nat
  events : List ExecEvent
  joins : List Nat
  ctorFailures : List (Nat × Exc)
  deriving DecidableEq

/-- The state of a freshly constructed Workflow. -/
def initState : WState where
  tasks := ∅
  tasksById := ∅
  doneTasks := ∅
  updatedNextTasks := []
  internalExc := none
  mustCancel := false
  result := none
  cancelledTasks := ∅
  queue := []
  events := []
  joins := []
  ctorFailures := []

/-- Workflow._try_mark_done: when every started task has run its done
callback and the future is still pending, settle the future (internal
exception first, then cancellation, then normal completion with the task
set as result) and dispatch the corresponding execution event. -/
def tryMarkDone (s : WState) : WState :=
  if s.tasks = s.doneTasks ∧ s.result = none then
    match s.internalExc with
    | some e =>
        { s with result := some (WfResult.exception e),
                 events := s.events ++ [ExecEvent.error] }
    | none =>
        if s.mustCancel then
          { s with result := some WfResult.cancelled,
                   events := s.events ++ [ExecEvent.wfEnd] }
        else
          { s with result := some (WfResult.finished s.tasks),
                   events := s.events ++ [ExecEvent.wfEnd] }
  else s

/-- Workflow._cancel_all_tasks: set _must_cancel, request cancellation of
every started task not yet through its done callback, and count the
cancellations that took (task.cancel() returns False on a task whose future
is already done, here one already cancelled). -/
def cancelAllTasks (s : WState) : WState × Nat :=
  let s1 : WState := { s with mustCancel := true }
  let newly := (s1.tasks \ s1.doneTasks) \ s1.cancelledTasks
  ({ s1 with cancelledTasks := s1.cancelledTasks ∪ newly }, newly.card)

/-- The outcome of Workflow._new_task. -/
inductive NewTaskResult where
  | created (s : WState)
  | failedCaught (s : WState)
  | failedUncaught (s : WState) (e : Exc)

/-- Workflow._new_task: create the task from its template.  On success the
task is recorded in tasks and _tasks_by_id and its body is scheduled (it
joins the queue).  When the constructor raises one of the caught classes,
the exception is stored in _internal_exc, every pending task is cancelled
and None is returned; any other exception escapes _new_task with no state
change (the ghost ctorFailures log records both cases). -/
def newTask (beh : Behavior) (s : WState) (uid : Nat) : NewTaskResult :=
  match beh.ctorExc uid with
  | some e =>
      let s1 : WState := { s with ctorFailures := s.ctorFailures ++ [(uid, e)] }
      if caughtAtTaskCreation e then
        NewTaskResult.failedCaught (cancelAllTasks { s1 with internalExc := some e }).1
      else
        NewTaskResult.failedUncaught s1 e
  | none =>
      NewTaskResult.created
        { s with tasks := insert uid s.tasks,
                 tasksById := insert uid s.tasksById,
                 queue := s.queue ++ [uid] }

/-- A task future is done: its callback ran, or it was cancelled before
running (the only way a started task can be done before its callback in
this single-loop model). -/
def taskIsDone (s : WState) (uid : Nat) : Bool :=
  uid ∈ s.doneTasks || uid ∈ s.cancelledTasks

/-- The filter loop inside Workflow._get_next_task_templates: keep, in the
order the task supplied them, the ids that are actual downstream templates;
unknown ids are ignored. -/
def filterNextTasks (succTmpls : List Nat) : List Nat → List Nat
  | [] => []
  | tid :: rest =>
      if tid ∈ succTmpls then tid :: filterNextTasks succTmpls rest
      else filterNextTasks succTmpls rest

/-- Workflow._get_next_task_templates: the downstream templates of the done
task, filtered by the runtime override recorded by set_next_tasks when
present. -/
def getNextTaskTemplates (g : Graph) (s : WState) (t : Nat) : List Nat :=
  let succTmpls := lookupSucc g t
  match s.updatedNextTasks.find? (fun e => e.1 == t) with
  | none => succTmpls
  | some e => filterNextTasks succTmpls e.2

/-- The for loop over the next templates in Workflow._run_next_tasks: an
already started and done successor is skipped; a started pending successor
receives the event through its queue (a join, recorded in the ghost joins
log); otherwise the successor is created.  A creation failure ends the loop:
the caught case through the break on a None task, the uncaught case through
the exception aborting the loop body. -/
def startNextTasks (beh : Behavior) (s : WState) : List Nat → WState
  | [] => s
  | uid :: rest =>
      if uid ∈ s.tasksById then
        if taskIsDone s uid then startNextTasks beh s rest
        else startNextTasks beh { s with joins := s.joins ++ [uid] } rest
      else
        match newTask beh s uid with
        | NewTaskResult.created s' => startNextTasks beh s' rest
        | NewTaskResult.failedCaught s' => s'
        | NewTaskResult.failedUncaught s' _ => s'

/-- Record the done callback of a task as run (_done_tasks.add(task)). -/
def addDone (s : WState) (t : Nat) : WState :=
  { s with doneTasks := insert t s.doneTasks }

/-- task.result() raises: the task was cancelled, or its body raised. -/
def taskFailed (beh : Behavior) (s : WState) (t : Nat) : Bool :=
  t ∈ s.cancelledTasks || !beh.bodyOk t

/-- Workflow._run_next_tasks, the done callback of every task: record the
task as done; when cancellation is in progress just try to finish; when the
task failed or was cancelled do not expand its branch; otherwise start or
join the downstream tasks.  _try_mark_done runs on every path (finally). -/
def runNextTasks (beh : Behavior) (g : Graph) (s : WState) (t : Nat) : WState :=
  if (addDone s t).mustCancel then tryMarkDone (addDone s t)
  else if taskFailed beh (addDone s t) t then tryMarkDone (addDone s t)
  else tryMarkDone (startNextTasks beh (addDone s t)
    (getNextTaskTemplates g (addDone s t) t))

/-- One scheduler step: run the done callback of the next completed task. -/
def stepW (beh : Behavior) (g : Graph) (s : WState) : WState :=
  match s.queue with
  | [] => s
  | t :: rest => runNextTasks beh g { s with queue := rest } t

/-- Drive the event loop until no started task is pending (with fuel; every
step settles one task for good, so the number of reachable template ids
bounds the steps needed). -/
def runLoop (beh : Behavior) (g : Graph) : Nat → WState → WState
  | 0, s => s
  | fuel + 1, s => if s.queue = [] then s else runLoop beh g fuel (stepW beh g s)

/-- WorkflowTemplate.root: the single root of the DAG
(WorkflowRootTaskError when there is not exactly one, DAGValidationError
propagating from root_nodes when there is none at all). -/
def templateRoot (g : Graph) : Except Exc Nat :=
  match root_nodes g with
  | Except.error _ => Except.error Exc.dagValidationError
  | Except.ok roots =>
      match roots with
      | [r] => Except.ok r
      | _ => Except.error Exc.rootTaskError

/-- Workflow.run: raise RuntimeError when tasks have already been started;
look up the root template, a WorkflowRootTaskError becoming the internal
exception; otherwise dispatch workflow-begin and start the root task,
falling back to _try_mark_done when the root task could not be created.
Returns the new state and the root task (None when startup failed); an
uncaught exception from _new_task propagates to the caller. -/
def runWf (beh : Behavior) (g : Graph) (s : WState) : Except Exc (WState × Option Nat) :=
  if s.tasks ≠ ∅ then Except.error Exc.runtimeError
  else
    match templateRoot g with
    | Except.error Exc.rootTaskError =>
        Except.ok (tryMarkDone { s with internalExc := some Exc.rootTaskError }, none)
    | Except.error e => Except.error e
    | Except.ok root =>
        let s1 : WState := { s with events := s.events ++ [ExecEvent.begin] }
        match newTask beh s1 root with
        | NewTaskResult.created s2 => Except.ok (s2, some root)
        | NewTaskResult.failedCaught s2 => Except.ok (tryMarkDone s2, none)
        | NewTaskResult.failedUncaught _ e => Except.error e

/-- The template ids a run can ever start a task for: the DAG keys and
every id in a successor set. -/
def graphUniverse (g : Graph) : Finset Nat :=
  (g.map (fun e => e.1)).toFinset ∪ (g.map (fun e => e.2)).foldr (fun a b => a.toFinset ∪ b) ∅

/-- A complete run of a fresh workflow: Workflow.run followed by the event
loop until every started task is done and handled. -/
def runWorkflowE (beh : Behavior) (g : Graph) : Except Exc WState :=
  match runWf beh g initState with
  | Except.error e => Except.error e
  | Except.ok (s, _) => Except.ok (runLoop beh g (graphUniverse g).card s)

/-- asyncio.Future.cancel on the workflow future itself: a no-op on a future
that is already done. -/
def futureCancel (s : WState) : WState :=
  if s.result = none then { s with result := some WfResult.cancelled } else s

/-- Workflow.cancel: cancel all pending tasks; when none was actually
cancelled, cancel the workflow future itself.  Always returns True. -/
def wfCancel (s : WState) : WState × Bool :=
  let p := cancelAllTasks s
  if p.2 = 0 then (futureCancel p.1, true) else (p.1, true)

/-! ## OverrunPolicyHandler (tukio/workflow.py) -/

/-- The overrun policies. -/
inductive Policy where
  | skip
  | startNew
  | skipUntilUnlock
  | abortRunning
  deriving DecidableEq, Repr

/-- A running workflow instance as the policy handlers observe it: the uid
of its template and whether its lock is held. -/
structure RunningWf where
  tmplUid : Nat
  locked : Bool
  deriving DecidableEq, Repr

/-- OverrunPolicyHandler._check_wflow: ValueError when the instance was
built from another template. -/
def checkWflow (uid : Nat) (w : RunningWf) : Except Exc Unit :=
  if w.tmplUid ≠ uid then Except.error Exc.valueError else Except.ok ()

/-- The check loop shared by _skip and _abort_running (which also cancels
each instance; the cancellation does not affect the check). -/
def checkAllWflows (uid : Nat) : List RunningWf → Except Exc Unit
  | [] => Except.ok ()
  | w :: rest =>
      match checkWflow uid w with
      | Except.error e => Except.error e
      | Except.ok _ => checkAllWflows uid rest

/-- OverrunPolicyHandler._skip: a new instance only when nothing is
running; otherwise every running instance is checked and None returned. -/
def policySkip (uid : Nat) (running : List RunningWf) : Except Exc Bool :=
  if running = [] then Except.ok true
  else
    match checkAllWflows uid running with
    | Except.error e => Except.error e
    | Except.ok _ => Except.ok false

/-- OverrunPolicyHandler._start_new: always a new instance, no check. -/
def policyStartNew (_ : Nat) (_ : List RunningWf) : Except Exc Bool :=
  Except.ok true

/-- The for/else loop of _skip_until_unlock: check each instance in order
and break at the first locked one (returning None); run a new instance when
no instance is locked. -/
def skipUntilUnlockLoop (uid : Nat) : List RunningWf → Except Exc Bool
  | [] => Except.ok true
  | w :: rest =>
      match checkWflow uid w with
      | Except.error e => Except.error e
      | Except.ok _ => if w.locked then Except.ok false else skipUntilUnlockLoop uid rest

/-- OverrunPolicyHandler._skip_until_unlock. -/
def policySkipUntilUnlock (uid : Nat) (running : List RunningWf) : Except Exc Bool :=
  if running = [] then Except.ok true
  else skipUntilUnlockLoop uid running

/-- OverrunPolicyHandler._abort_running: check and cancel every running
instance, then run a new one. -/
def policyAbortRunning (uid : Nat) (running : List RunningWf) : Except Exc Bool :=
  match checkAllWflows uid running with
  | Except.error e => Except.error e
  | Except.ok _ => Except.ok true

/-- OverrunPolicyHandler.new_workflow: dispatch on the policy.  The result
is True when a new instance is created, False for None. -/
def newWorkflowByPolicy : Policy → Nat → List RunningWf → Except Exc Bool
  | Policy.skip => policySkip
  | Policy.startNew => policyStartNew
  | Policy.skipUntilUnlock => policySkipUntilUnlock
  | Policy.abortRunning => policyAbortRunning

deriving instance DecidableEq for Except

/-! ## Concrete instances

Task ids of the test templates are renamed to numbers: task 1 is 1, task 2
is 2, crash is 10, wont_run is 11. -/

/-- Every constructor succeeds and every body completes. -/
def okBeh : Behavior where
  ctorExc := fun _ => none
  bodyOk := fun _ => true

/-- The crash_test graph with the successors of task 1 iterated as
[crash, 2], the insertion order of the template dict (Python iterates a set
here, in an unspecified order). -/
def crashG : Graph := [(1, [10, 2]), (10, [11]), (11, []), (2, [])]

/-- The crash_test graph with the successors of task 1 iterated as
[2, crash]. -/
def crashG2 : Graph := [(1, [2, 10]), (10, [11]), (11, []), (2, [])]

/-- The crash holder: its constructor raises KeyError (config missing a
required key), every other holder behaves. -/
def crashBeh : Behavior where
  ctorExc := fun u => if u = 10 then some Exc.keyError else none
  bodyOk := fun _ => true

/-- A two-task chain. -/
def lineG : Graph := [(1, [2]), (2, [])]

/-- The constructor of task 2 raises KeyError. -/
def kBeh : Behavior where
  ctorExc := fun u => if u = 2 then some Exc.keyError else none
  bodyOk := fun _ => true

/-- The constructor of the root raises TypeError (a caught class). -/
def rootCrashBeh : Behavior where
  ctorExc := fun u => if u = 1 then some Exc.typeError else none
  bodyOk := fun _ => true

/-- A single task graph. -/
def oneG : Graph := [(1, [])]

/-- The state after a first Workflow.run whose root task could not be
created (rootCrashBeh): no task was ever started. -/
def c7s1 : WState :=
  match runWf rootCrashBeh oneG initState with
  | Except.ok (s, _) => s
  | Except.error _ => initState

/-- The final state of a completed single-task run. -/
def c9state : WState :=
  match runWorkflowE okBeh oneG with
  | Except.ok w => w
  | Except.error _ => initState

/-- The final state of the crash_test run with successor order [crash, 2]. -/
def c3w : WState :=
  match runWorkflowE crashBeh crashG with
  | Except.ok w => w
  | Except.error _ => initState

/-- The final state of the crash_test run with successor order [2, crash]. -/
def c3w2 : WState :=
  match runWorkflowE crashBeh crashG2 with
  | Except.ok w => w
  | Except.error _ => initState

/-- The final state of the run in which the constructor of task 2 raises an
uncaught KeyError. -/
def c2w : WState :=
  match runWorkflowE kBeh lineG with
  | Except.ok w => w
  | Except.error _ => initState

/-- The declarative dict of the test template ok (task ids 1..4). -/
def okWfDict : WfDict where
  tasks := [{ id := 1, name := 0 }, { id := 2, name := 0 },
            { id := 3, name := 0 }, { id := 4, name := 0 }]
  graph := [(1, [2, 3]), (2, [4]), (3, []), (4, [])]

/-! ## Invariants of the engine state machine

EngineInv holds between scheduler steps; MidInv holds inside a step, after
the handled task left the queue and joined done_tasks but before the final
_try_mark_done of the step; CleanSt captures a run without internal
failures and without cancellation. -/

/-- The step invariant of a workflow run. -/
structure EngineInv (g : Graph) (s : WState) : Prop where
  nodup : s.queue.Nodup
  queueMem : ∀ t, t ∈ s.queue ↔ (t ∈ s.tasks ∧ t ∉ s.doneTasks)
  byId : s.tasksById = s.tasks
  doneSub : s.doneTasks ⊆ s.tasks
  taskSub : s.tasks ⊆ graphUniverse g
  resultDone : s.result ≠ none → s.tasks = s.doneTasks
  queueResult : s.queue = [] → s.result ≠ none
  excResult : ∀ r, s.result = some r → s.internalExc ≠ none →
      ∃ e2, r = WfResult.exception e2
  errEvent : ∀ e2, s.result = some (WfResult.exception e2) →
      ExecEvent.error ∈ s.events
  finTasks : ∀ ts, s.result = some (WfResult.finished ts) → ts = s.tasks
  failExc : (∃ p ∈ s.ctorFailures, caughtAtTaskCreation p.2 = true) →
      s.internalExc ≠ none
  failCancel : (∃ p ∈ s.ctorFailures, caughtAtTaskCreation p.2 = true) →
      s.mustCancel = true

/-- The invariant inside one scheduler step (the future is still pending
there: a pending queue entry witnessed a pending future on entry). -/
structure MidInv (g : Graph) (s : WState) : Prop where
  nodup : s.queue.Nodup
  queueMem : ∀ t, t ∈ s.queue ↔ (t ∈ s.tasks ∧ t ∉ s.doneTasks)
  byId : s.tasksById = s.tasks
  doneSub : s.doneTasks ⊆ s.tasks
  taskSub : s.tasks ⊆ graphUniverse g
  resultNone : s.result = none
  failExc : (∃ p ∈ s.ctorFailures, caughtAtTaskCreation p.2 = true) →
      s.internalExc ≠ none
  failCancel : (∃ p ∈ s.ctorFailures, caughtAtTaskCreation p.2 = true) →
      s.mustCancel = true

/-- A run state with no internal failure and no cancellation under way. -/
def CleanSt (s : WState) : Prop :=
  s.internalExc = none ∧ s.mustCancel = false ∧ s.cancelledTasks = ∅
  ∧ (∀ r, s.result = some r → ∃ ts, r = WfResult.finished ts)

/-! ## Claims about the DAG and the template loader -/

/-- Claim C10: on the empty DAG, validate() raises DAGValidationError
because no root node exists, hence is_valid() returns False: an empty graph
is not a valid DAG. -/
theorem c10_empty_dag_invalid :
    root_nodes ([] : Graph) = Except.error (DagErr.dagValidation ValMsg.noRoot)
  ∧ validate ([] : Graph) = Except.error (DagErr.dagValidation ValMsg.noRoot)
  ∧ is_valid ([] : Graph) = false := by
  exact ⟨rfl, rfl, rfl⟩

/-! ## Claims about the engine -/

/-- Claim C1: after each completion handler invocation (_run_next_tasks ends
in _try_mark_done on every path), the workflow becomes terminal iff the set
of started tasks equals the set of tasks whose handler has run and the
workflow is not already terminal; the terminal state follows the precedence
internal exception (with a workflow-error event), then cancellation, then
finished with the set of started tasks as result and a workflow-end
event. -/
theorem c1_terminal_finalization (s : WState) :
    (((tryMarkDone s).result ≠ none ∧ s.result = none) ↔
        (s.tasks = s.doneTasks ∧ s.result = none))
  ∧ (¬(s.tasks = s.doneTasks ∧ s.result = none) → tryMarkDone s = s)
  ∧ (s.tasks = s.doneTasks → s.result = none →
        (∀ e, s.internalExc = some e →
          tryMarkDone s = { s with result := some (WfResult.exception e),
                                   events := s.events ++ [ExecEvent.error] })
      ∧ (s.internalExc = none → s.mustCancel = true →
          tryMarkDone s = { s with result := some WfResult.cancelled,
                                   events := s.events ++ [ExecEvent.wfEnd] })
      ∧ (s.internalExc = none → s.mustCancel = false →
          tryMarkDone s = { s with result := some (WfResult.finished s.tasks),
                                   events := s.events ++ [ExecEvent.wfEnd] }))
  ∧ (∀ beh g t, ∃ s1, runNextTasks beh g s t = tryMarkDone s1) := by
  refine ⟨?_, ?_, ?_, ?_⟩
  · constructor
    · rintro ⟨hne, hnone⟩
      refine ⟨?_, hnone⟩
      by_contra htasks
      have : tryMarkDone s = s := by
        unfold tryMarkDone
        rw [if_neg]
        intro h
        exact htasks h.1
      rw [this] at hne
      exact hne hnone
    · rintro ⟨htasks, hnone⟩
      refine ⟨?_, hnone⟩
      unfold tryMarkDone
      rw [if_pos ⟨htasks, hnone⟩]
      cases hexc : s.internalExc with
      | some e => simp
      | none =>
        cases hmc : s.mustCancel <;> simp
  · intro h
    unfold tryMarkDone
    rw [if_neg h]
  · intro htasks hnone
    refine ⟨?_, ?_, ?_⟩
    · intro e he
      unfold tryMarkDone
      rw [if_pos ⟨htasks, hnone⟩, he]
    · intro he hmc
      unfold tryMarkDone
      rw [if_pos ⟨htasks, hnone⟩, he]
      simp [hmc]
    · intro he hmc
      unfold tryMarkDone
      rw [if_pos ⟨htasks, hnone⟩, he]
      simp [hmc]
  · intro beh g t
    unfold runNextTasks
    by_cases h1 : (addDone s t).mustCancel
    · exact ⟨addDone s t, by rw [if_pos h1]⟩
    · by_cases h2 : taskFailed beh (addDone s t) t
      · exact ⟨addDone s t, by rw [if_neg h1, if_pos h2]⟩
      · exact ⟨startNextTasks beh (addDone s t)
            (getNextTaskTemplates g (addDone s t) t), by rw [if_neg h1, if_neg h2]⟩

/-- Claim C3: evaluation of the crash_test run at the failing successor
order.  With the successors of task 1 iterated as [crash, 2] (the insertion
order of the template dict; Python iterates a set here, so the order is
unspecified), the KeyError raised by the crash constructor escapes
_new_task, aborts the successor loop before task 2 is created, and the
workflow still finishes: task 2 is then absent from _tasks_by_id, against
the expectation of test_workflow_crash.  With the order [2, crash] the run
matches the test: tasks 1 and 2 finish, crash and wont_run are never
started, and the workflow finishes. -/
theorem c3_crash_run_eval :
    runWorkflowE crashBeh crashG = Except.ok c3w
  ∧ (1 ∈ c3w.tasksById ∧ 2 ∉ c3w.tasksById ∧ 10 ∉ c3w.tasksById ∧ 11 ∉ c3w.tasksById)
  ∧ c3w.result = some (WfResult.finished c3w.tasks)
  ∧ c3w.internalExc = none
  ∧ c3w.events = [ExecEvent.begin, ExecEvent.wfEnd]
  ∧ runWorkflowE crashBeh crashG2 = Except.ok c3w2
  ∧ (1 ∈ c3w2.tasksById ∧ 2 ∈ c3w2.tasksById ∧ 10 ∉ c3w2.tasksById ∧ 11 ∉ c3w2.tasksById)
  ∧ (1 ∈ c3w2.doneTasks ∧ 2 ∈ c3w2.doneTasks ∧ c3w2.cancelledTasks = ∅)
  ∧ c3w2.result = some (WfResult.finished c3w2.tasks)
  ∧ c3w2.internalExc = none
  ∧ c3w2.events = [ExecEvent.begin, ExecEvent.wfEnd] := by
  refine ⟨by decide, by decide, by decide, by decide, by decide, by decide,
    by decide, by decide, by decide, by decide, by decide⟩

/-- Claim C2, counterexample: a run in which creating a task fails (the
constructor of task 2 raises KeyError, which is not in the except clause of
_new_task) records no internal exception, cancels nothing, terminates
finished and emits workflow-end, not workflow-error. -/
theorem c2_counterexample :
    runWorkflowE kBeh lineG = Except.ok c2w
  ∧ c2w.ctorFailures = [(2, Exc.keyError)]
  ∧ c2w.internalExc = none
  ∧ c2w.mustCancel = false
  ∧ c2w.result = some (WfResult.finished c2w.tasks)
  ∧ c2w.events = [ExecEvent.begin, ExecEvent.wfEnd] := by
  refine ⟨by decide, by decide, by decide, by decide, by decide, by decide⟩

/-- Claim C7, counterexample: a first call to Workflow.run that fails to
start the root task (its constructor raises a caught TypeError) returns
with no task started, and a second call to run does not raise
RuntimeError (it returns again instead of failing). -/
theorem c7_counterexample :
    runWf rootCrashBeh oneG initState = Except.ok (c7s1, none)
  ∧ c7s1.tasks = ∅
  ∧ (runWf rootCrashBeh oneG c7s1).isOk = true := by
  refine ⟨by decide, by decide, by decide⟩

/-- Claim C9, counterexample: on a workflow that completed normally (a
reachable state: the final state of a one-task run), every started task is
done, cancel() still returns True, but the workflow future stays finished:
it is not marked cancelled, because Future.cancel is a no-op on a done
future. -/
theorem c9_counterexample :
    runWorkflowE okBeh oneG = Except.ok c9state
  ∧ c9state.tasks \ c9state.doneTasks = ∅
  ∧ (wfCancel c9state).2 = true
  ∧ (wfCancel c9state).1.result = some (WfResult.finished {1})
  ∧ (wfCancel c9state).1.result ≠ some WfResult.cancelled := by
  refine ⟨by decide, by decide, by decide, by decide, by decide⟩

/-- Claim C8, counterexample: under the start-new policy the handler
returns a new instance without checking any running instance: here a
running instance was built from template 1 while the handler serves
template 0, and no ValueError is raised; under skip-until-unlock a
mismatched instance standing after a locked one is never checked either. -/
theorem c8_counterexample :
    newWorkflowByPolicy Policy.startNew 0 [{ tmplUid := 1, locked := false }]
      = Except.ok true
  ∧ (1 : Nat) ≠ 0
  ∧ newWorkflowByPolicy Policy.skipUntilUnlock 0
      [{ tmplUid := 0, locked := true }, { tmplUid := 1, locked := false }]
      = Except.ok false := by
  refine ⟨by decide, by decide, by decide⟩

/-- Claim C5, counterexample: on the cyclic two-node graph (a state a DAG
object can hold, e.g. assigned directly as in WorkflowTemplate.copy),
add_edge(0, 1) fails validation although the edge is already present; the
rollback then removes the pre-existing edge, so the graph after the failed
call differs from the graph before it and is_valid() flips from False to
True. -/
theorem c5_counterexample :
    add_edge [(0, [1]), (1, [0])] 0 1
      = (some (DagErr.dagValidation ValMsg.noRoot), [(0, []), (1, [0])])
  ∧ ([(0, []), (1, [0])] : Graph) ≠ [(0, [1]), (1, [0])]
  ∧ is_valid [(0, [1]), (1, [0])] = false
  ∧ is_valid [(0, []), (1, [0])] = true := by
  refine ⟨by decide, by decide, by decide, by decide⟩

/-- Claim C6, counterexample: WorkflowTemplate.from_dict accepts a template
with two tasks and no edge and returns without raising, yet the resulting
DAG has two root tasks, not exactly one: from_dict never calls validate(),
which is where the single-root constraint lives. -/
theorem c6_counterexample :
    wtFromDict { tasks := [{ id := 0, name := 0 }, { id := 1, name := 0 }],
                 graph := [(0, []), (1, [])] }
      = Except.ok { dagGraph := [(0, []), (1, [])], taskIds := [(0, 0), (1, 1)] }
  ∧ rootsOf [(0, []), (1, [])] = [0, 1]
  ∧ templateRoot [(0, []), (1, [])] = Except.error Exc.rootTaskError := by
  refine ⟨by decide, by decide, by decide⟩

/-- Helper: a completed check loop has checked every instance. -/
theorem checkAllWflows_ok (uid : Nat) :
    ∀ l, checkAllWflows uid l = Except.ok () → ∀ w ∈ l, w.tmplUid = uid := by
  intro l
  induction l with
  | nil => intro _ w hw; cases hw
  | cons x rest ih =>
      intro h w hw
      unfold checkAllWflows at h
      cases hcheck : checkWflow uid x with
      | error e => rw [hcheck] at h; cases h
      | ok _ =>
          rw [hcheck] at h
          rcases List.mem_cons.mp hw with rfl | hw
          · unfold checkWflow at hcheck
            by_cases hx : w.tmplUid ≠ uid
            · rw [if_pos hx] at hcheck; cases hcheck
            · exact not_not.mp hx
          · exact ih h w hw

/-- Helper: the only exception the policy handlers raise is the ValueError
of _check_wflow. -/
theorem checkAllWflows_err (uid : Nat) :
    ∀ l e, checkAllWflows uid l = Except.error e → e = Exc.valueError := by
  intro l
  induction l with
  | nil => intro e h; cases h
  | cons x rest ih =>
      intro e h
      unfold checkAllWflows at h
      cases hcheck : checkWflow uid x with
      | error e1 =>
          rw [hcheck] at h
          unfold checkWflow at hcheck
          by_cases hx : x.tmplUid ≠ uid
          · rw [if_pos hx] at hcheck
            cases h
            cases hcheck
            rfl
          · rw [if_neg hx] at hcheck; cases hcheck
      | ok _ => rw [hcheck] at h; exact ih e h

/-- Helper: when the skip-until-unlock loop returns, every instance up to
and including the first locked one has been checked. -/
theorem skipUntilUnlockLoop_ok (uid : Nat) :
    ∀ l b, skipUntilUnlockLoop uid l = Except.ok b →
      ∀ l1 w l2, l = l1 ++ w :: l2 → (∀ x ∈ l1, x.locked = false) →
        w.tmplUid = uid := by
  intro l
  induction l with
  | nil =>
      intro b _ l1 w l2 heq _
      exact absurd heq (by simp)
  | cons x rest ih =>
      intro b h l1 w l2 heq hunlocked
      unfold skipUntilUnlockLoop at h
      cases hcheck : checkWflow uid x with
      | error e => rw [hcheck] at h; cases h
      | ok _ =>
          rw [hcheck] at h
          have hx : x.tmplUid = uid := by
            unfold checkWflow at hcheck
            by_cases hx : x.tmplUid ≠ uid
            · rw [if_pos hx] at hcheck; cases hcheck
            · exact not_not.mp hx
          cases l1 with
          | nil =>
              simp only [List.nil_append] at heq
              injection heq with h1 _
              rw [← h1]
              exact hx
          | cons y l1t =>
              rw [List.cons_append] at heq
              injection heq with h1 h2
              have hxunlocked : x.locked = false := by
                rw [h1]
                exact hunlocked y (by simp)
              rw [hxunlocked] at h
              simp only [Bool.false_eq_true, if_false] at h
              exact ih b h l1t w l2 h2 (fun z hz => hunlocked z (by simp [hz]))

/-- Helper: the skip-until-unlock loop raises only ValueError. -/
theorem skipUntilUnlockLoop_err (uid : Nat) :
    ∀ l e, skipUntilUnlockLoop uid l = Except.error e → e = Exc.valueError := by
  intro l
  induction l with
  | nil => intro e h; cases h
  | cons x rest ih =>
      intro e h
      unfold skipUntilUnlockLoop at h
      cases hcheck : checkWflow uid x with
      | error e1 =>
          rw [hcheck] at h
          unfold checkWflow at hcheck
          by_cases hx : x.tmplUid ≠ uid
          · rw [if_pos hx] at hcheck
            cases h
            cases hcheck
            rfl
          · rw [if_neg hx] at hcheck; cases hcheck
      | ok _ =>
          rw [hcheck] at h
          cases hl : x.locked with
          | true => rw [hl] at h; simp at h
          | false =>
              rw [hl] at h
              simp only [Bool.false_eq_true, if_false] at h
              exact ih e h

/-- Claim C8, amended: the skip and abort-running handlers check every
running instance before returning a new instance or None, so any uid
mismatch raises ValueError; skip-until-unlock checks the instances in
order only up to and including the first locked one; start-new performs no
check and always returns a new instance; and ValueError is the only
exception any handler raises. -/
theorem c8_amended (uid : Nat) (running : List RunningWf) :
    (∀ pol, pol = Policy.skip ∨ pol = Policy.abortRunning →
        ∀ b, newWorkflowByPolicy pol uid running = Except.ok b →
          ∀ w ∈ running, w.tmplUid = uid)
  ∧ (∀ b, newWorkflowByPolicy Policy.skipUntilUnlock uid running = Except.ok b →
        ∀ l1 w l2, running = l1 ++ w :: l2 → (∀ x ∈ l1, x.locked = false) →
          w.tmplUid = uid)
  ∧ newWorkflowByPolicy Policy.startNew uid running = Except.ok true
  ∧ (∀ pol e, newWorkflowByPolicy pol uid running = Except.error e →
        e = Exc.valueError) := by
  refine ⟨?_, ?_, rfl, ?_⟩
  · rintro pol (rfl | rfl) b h w hw
    · simp only [newWorkflowByPolicy] at h
      unfold policySkip at h
      by_cases hr : running = []
      · rw [hr] at hw; cases hw
      · rw [if_neg hr] at h
        cases hall : checkAllWflows uid running with
        | error e => rw [hall] at h; cases h
        | ok _ => exact checkAllWflows_ok uid running hall w hw
    · simp only [newWorkflowByPolicy] at h
      unfold policyAbortRunning at h
      cases hall : checkAllWflows uid running with
      | error e => rw [hall] at h; cases h
      | ok _ => exact checkAllWflows_ok uid running hall w hw
  · intro b h l1 w l2 heq hunlocked
    simp only [newWorkflowByPolicy] at h
    unfold policySkipUntilUnlock at h
    by_cases hr : running = []
    · rw [hr] at heq
      exact absurd heq (by simp)
    · rw [if_neg hr] at h
      exact skipUntilUnlockLoop_ok uid running b h l1 w l2 heq hunlocked
  · intro pol e h
    cases pol with
    | skip =>
        simp only [newWorkflowByPolicy] at h
        unfold policySkip at h
        by_cases hr : running = []
        · rw [if_pos hr] at h; cases h
        · rw [if_neg hr] at h
          cases hall : checkAllWflows uid running with
          | error e1 =>
              rw [hall] at h
              cases h
              exact checkAllWflows_err uid running e hall
          | ok _ => rw [hall] at h; cases h
    | startNew => cases h
    | skipUntilUnlock =>
        simp only [newWorkflowByPolicy] at h
        unfold policySkipUntilUnlock at h
        by_cases hr : running = []
        · rw [if_pos hr] at h; cases h
        · rw [if_neg hr] at h
          exact skipUntilUnlockLoop_err uid running e h
    | abortRunning =>
        simp only [newWorkflowByPolicy] at h
        unfold policyAbortRunning at h
        cases hall : checkAllWflows uid running with
        | error e1 =>
            rw [hall] at h
            cases h
            exact checkAllWflows_err uid running e hall
        | ok _ => rw [hall] at h; cases h

/-- Claim C9, amended: cancel() always returns True; and when the workflow
has no started-but-not-done task AND its future is not already done, the
future itself is immediately marked cancelled (Future.cancel is a no-op on
a done future, so a workflow that already terminated stays in its terminal
state). -/
theorem c9_amended :
    (∀ s : WState, (wfCancel s).2 = true)
  ∧ (∀ s : WState, s.tasks \ s.doneTasks = ∅ → s.result = none →
        (wfCancel s).1.result = some WfResult.cancelled) := by
  constructor
  · intro s
    by_cases h : (cancelAllTasks s).2 = 0 <;> simp [wfCancel, h]
  · intro s h1 h2
    have hcard : (cancelAllTasks s).2 = 0 := by
      simp [cancelAllTasks, h1]
    have hres : (cancelAllTasks s).1.result = none := by
      simp [cancelAllTasks, h2]
    simp [wfCancel, hcard, futureCancel, hres]

/-- Claim C7, amended: run() raises RuntimeError on a workflow that has
already started at least one task; in particular a second call after a
first call that returned a root task raises.  But when the first call
failed before any task started (no root task, or the root task could not
be created), self.tasks is still empty and a second call does not raise
RuntimeError. -/
theorem c7_amended :
    (∀ (beh : Behavior) (g : Graph) (s : WState), s.tasks ≠ ∅ →
        runWf beh g s = Except.error Exc.runtimeError)
  ∧ (∀ (beh : Behavior) (g : Graph) (s s1 : WState) (r : Nat),
        runWf beh g s = Except.ok (s1, some r) →
        ∀ (beh2 : Behavior) (g2 : Graph),
          runWf beh2 g2 s1 = Except.error Exc.runtimeError) := by
  constructor
  · intro beh g s h
    unfold runWf
    rw [if_pos h]
  · intro beh g s s1 r h beh2 g2
    unfold runWf at h
    by_cases hne : s.tasks ≠ ∅
    · rw [if_pos hne] at h; cases h
    · rw [if_neg hne] at h
      have hs1 : s1.tasks ≠ ∅ := by
        cases hroot : templateRoot g with
        | error e =>
            rw [hroot] at h
            cases e <;> simp_all
        | ok root =>
            rw [hroot] at h
            cases hc : beh.ctorExc root with
            | some e =>
                simp only [newTask, hc] at h
                by_cases hcaught : caughtAtTaskCreation e = true
                · rw [if_pos hcaught] at h; cases h
                · rw [if_neg hcaught] at h; cases h
            | none =>
                simp only [newTask, hc] at h
                cases h
                exact Finset.insert_ne_empty _ _
      unfold runWf
      rw [if_pos hs1]

/-- Helper: an update that fixes the successor set of its key leaves the
graph unchanged. -/
theorem updSucc_eq_of_fixed (u : Nat) (f : List Nat → List Nat) :
    ∀ g : Graph, f (lookupSucc g u) = lookupSucc g u → updSucc g u f = g := by
  intro g
  induction g with
  | nil => intro _; rfl
  | cons e rest ih =>
      intro h
      unfold updSucc
      by_cases he : e.1 = u
      · rw [if_pos he]
        have hl : lookupSucc (e :: rest) u = e.2 := by
          unfold lookupSucc
          rw [List.find?_cons_of_pos _ (by simp [he])]
        rw [hl] at h
        rw [h]
      · rw [if_neg he]
        have hl : lookupSucc (e :: rest) u = lookupSucc rest u := by
          unfold lookupSucc
          rw [List.find?_cons_of_neg _ (by simp [he])]
        rw [hl] at h
        rw [ih h]

/-- Helper: two successive updates of the same key compose. -/
theorem updSucc_updSucc (u : Nat) (f f2 : List Nat → List Nat) :
    ∀ g : Graph, updSucc (updSucc g u f) u f2 = updSucc g u (fun s => f2 (f s)) := by
  intro g
  induction g with
  | nil => rfl
  | cons e rest ih =>
      by_cases he : e.1 = u
      · simp [updSucc, he]
      · simp [updSucc, he, ih]

/-- Helper: reading the updated key gives the updated successor set. -/
theorem lookupSucc_updSucc_self (u : Nat) (f : List Nat → List Nat) :
    ∀ g : Graph, hasKey g u = true → lookupSucc (updSucc g u f) u = f (lookupSucc g u) := by
  intro g
  induction g with
  | nil => intro h; cases h
  | cons e rest ih =>
      intro hk
      unfold updSucc
      by_cases he : e.1 = u
      · rw [if_pos he]
        unfold lookupSucc
        rw [List.find?_cons_of_pos _ (by simp [he]), List.find?_cons_of_pos _ (by simp [he])]
      · rw [if_neg he]
        have hk2 : hasKey rest u = true := by
          unfold hasKey at hk ⊢
          simp only [List.any_cons, Bool.or_eq_true] at hk
          rcases hk with hk | hk
          · exact absurd (by simpa using hk) he
          · exact hk
        unfold lookupSucc
        rw [List.find?_cons_of_neg _ (by simp [he]), List.find?_cons_of_neg _ (by simp [he])]
        exact ih hk2

/-- Helper: reading any other key is unaffected by the update. -/
theorem lookupSucc_updSucc_other (u w : Nat) (f : List Nat → List Nat) (hw : w ≠ u) :
    ∀ g : Graph, lookupSucc (updSucc g u f) w = lookupSucc g w := by
  intro g
  induction g with
  | nil => rfl
  | cons e rest ih =>
      unfold updSucc
      by_cases he : e.1 = u
      · rw [if_pos he]
        unfold lookupSucc
        have hne : ¬e.1 = w := by rw [he]; exact fun hc => hw hc.symm
        rw [List.find?_cons_of_neg _ (by simp [hne]), List.find?_cons_of_neg _ (by simp [hne])]
      · rw [if_neg he]
        unfold lookupSucc
        by_cases hew : e.1 = w
        · rw [List.find?_cons_of_pos _ (by simp [hew]), List.find?_cons_of_pos _ (by simp [hew])]
        · rw [List.find?_cons_of_neg _ (by simp [hew]), List.find?_cons_of_neg _ (by simp [hew])]
          exact ih

/-- Helper: an update never changes the key list of the dict. -/
theorem updSucc_keys (u : Nat) (f : List Nat → List Nat) :
    ∀ g : Graph, (updSucc g u f).map Prod.fst = g.map Prod.fst := by
  intro g
  induction g with
  | nil => rfl
  | cons e rest ih =>
      unfold updSucc
      by_cases he : e.1 = u
      · rw [if_pos he]; rfl
      · rw [if_neg he]
        simp only [List.map_cons, ih]

/-- Helper: removing a freshly added element restores the set. -/
theorem erase_setAdd (v : Nat) : ∀ s : List Nat, v ∉ s → (setAdd s v).erase v = s := by
  intro s
  induction s with
  | nil => intro _; simp [setAdd]
  | cons a s ih =>
      intro h
      have hva : ¬v = a := fun hc => h (by rw [hc]; exact List.mem_cons_self a s)
      have hvs : v ∉ s := fun hc => h (List.mem_cons_of_mem a hc)
      unfold setAdd
      rw [if_neg h]
      have hcons : (a :: s) ++ [v] = a :: (s ++ [v]) := rfl
      have hbeq : (a == v) = false := by
        simp only [beq_eq_false_iff_ne]
        exact fun hc => hva hc.symm
      rw [hcons, List.erase_cons, hbeq]
      simp only [Bool.false_eq_true, if_false]
      have hs : s ++ [v] = setAdd s v := by
        unfold setAdd
        rw [if_neg hvs]
      rw [hs, ih hvs]

/-- Helper: is_valid is exactly a successful validate. -/
theorem isValid_iff (g : Graph) : is_valid g = true ↔ validate g = Except.ok () := by
  unfold is_valid
  cases h : validate g with
  | ok a => cases a; simp
  | error e => simp

/-- Helper: validate only raises DAGValidationError values. -/
theorem validate_err (g : Graph) (e : DagErr) (h : validate g = Except.error e) :
    ∃ m, e = DagErr.dagValidation m := by
  unfold validate at h
  cases hr : root_nodes g with
  | error e1 =>
      rw [hr] at h
      unfold root_nodes at hr
      by_cases hroot : (rootsOf g).isEmpty = true
      · rw [if_pos hroot] at hr
        cases h
        cases hr
        exact ⟨ValMsg.noRoot, rfl⟩
      · rw [if_neg hroot] at hr; cases hr
  | ok roots =>
      rw [hr] at h
      cases ht : toposort g with
      | error e1 =>
          rw [ht] at h
          unfold toposort at ht
          cases hr2 : root_nodes g with
          | error e2 =>
              rw [hr] at hr2; cases hr2
          | ok roots2 =>
              rw [hr2] at ht
              dsimp only at ht
              by_cases hedges : (edgesList (kahnLoop (kahnFuel g) g roots2 []).1).isEmpty = true
              · rw [if_pos hedges] at ht; cases ht
              · rw [if_neg hedges] at ht
                cases h
                cases ht
                exact ⟨ValMsg.notAcyclic, rfl⟩
      | ok _ => rw [ht] at h; cases h

/-- Claim C5, amended: for every VALID DAG and nodes u and v, add_edge(u,v)
raises KeyError (leaving the graph unchanged) when either node is absent;
when adding the edge makes validation fail, a DAGValidationError is raised,
the edge is removed again and the graph, hence is_valid(), is exactly as
before the call; otherwise v is added to the successor set of u and nothing
else changes (no other successor set and no key is touched).  On an invalid
graph the rollback of a failed call can instead REMOVE a pre-existing edge
(see the counterexample), which is what restricts the claim to valid
graphs. -/
theorem c5_amended (g : Graph) (u v : Nat) (hvalid : is_valid g = true) :
    (¬(hasKey g u = true ∧ hasKey g v = true) →
        add_edge g u v = (some DagErr.keyError, g))
  ∧ (∀ e, (add_edge g u v).1 = some e → e ≠ DagErr.keyError →
        (∃ m, e = DagErr.dagValidation m)
      ∧ (add_edge g u v).2 = g
      ∧ is_valid (add_edge g u v).2 = is_valid g)
  ∧ ((add_edge g u v).1 = none →
        lookupSucc (add_edge g u v).2 u = setAdd (lookupSucc g u) v
      ∧ (∀ w, w ≠ u → lookupSucc (add_edge g u v).2 w = lookupSucc g w)
      ∧ (add_edge g u v).2.map Prod.fst = g.map Prod.fst) := by
  by_cases hk : (hasKey g u && hasKey g v) = true
  · have hk2 := hk
    rw [Bool.and_eq_true] at hk2
    obtain ⟨hku, hkv⟩ := hk2
    refine ⟨fun hc => absurd ⟨hku, hkv⟩ hc, ?_, ?_⟩
    · intro e he hne
      cases hval : validate (updSucc g u (fun s => setAdd s v)) with
      | ok _ =>
          have hfst : (add_edge g u v).1 = none := by
            unfold add_edge
            rw [if_pos hk, hval]
          rw [hfst] at he
          cases he
      | error e1 =>
          have hfst : (add_edge g u v).1 = some e1 := by
            unfold add_edge
            rw [if_pos hk, hval]
          have hsnd : (add_edge g u v).2
              = updSucc (updSucc g u (fun s => setAdd s v)) u (fun s => s.erase v) := by
            unfold add_edge
            rw [if_pos hk, hval]
          have he1 : e = e1 := by
            rw [hfst] at he
            injection he with he2
            exact he2.symm
          have hvnot : v ∉ lookupSucc g u := by
            intro hvmem
            have hfix : setAdd (lookupSucc g u) v = lookupSucc g u := by
              unfold setAdd
              rw [if_pos hvmem]
            have hg1 : updSucc g u (fun s => setAdd s v) = g :=
              updSucc_eq_of_fixed u _ g hfix
            rw [hg1, (isValid_iff g).mp hvalid] at hval
            cases hval
          have hroll : (add_edge g u v).2 = g := by
            rw [hsnd, updSucc_updSucc]
            exact updSucc_eq_of_fixed u _ g (erase_setAdd v (lookupSucc g u) hvnot)
          refine ⟨?_, hroll, by rw [hroll]⟩
          rw [he1]
          exact validate_err _ e1 hval
    · intro hnone
      cases hval : validate (updSucc g u (fun s => setAdd s v)) with
      | error e1 =>
          have hfst : (add_edge g u v).1 = some e1 := by
            unfold add_edge
            rw [if_pos hk, hval]
          rw [hfst] at hnone
          cases hnone
      | ok _ =>
          have hsnd : (add_edge g u v).2 = updSucc g u (fun s => setAdd s v) := by
            unfold add_edge
            rw [if_pos hk, hval]
          refine ⟨?_, ?_, ?_⟩
          · rw [hsnd]
            exact lookupSucc_updSucc_self u _ g hku
          · intro w hw
            rw [hsnd]
            exact lookupSucc_updSucc_other u w _ hw g
          · rw [hsnd]
            exact updSucc_keys u _ g
  · have hadd : add_edge g u v = (some DagErr.keyError, g) := by
      unfold add_edge
      rw [if_neg hk]
    refine ⟨fun _ => hadd, ?_, ?_⟩
    · intro e he hne
      rw [hadd] at he
      have he2 : DagErr.keyError = e := by simpa using he
      rw [← he2] at hne
      exact absurd rfl hne
    · intro hnone
      rw [hadd] at hnone
      cases hnone

/-- Claim C5, witness: the amended theorem applied to the valid graph with
the single edge 0 to 1.  Adding the cycle edge 1 to 0 fails validation and
the graph is exactly as before; the missing node 2 gives KeyError. -/
theorem c5_witness :
    ((add_edge [(0, [1]), (1, [])] 1 0).1 = some (DagErr.dagValidation ValMsg.noRoot) →
        (add_edge [(0, [1]), (1, [])] 1 0).2 = [(0, [1]), (1, [])])
  ∧ add_edge [(0, [1]), (1, [])] 0 2 = (some DagErr.keyError, [(0, [1]), (1, [])]) := by
  constructor
  · intro hfst
    exact ((c5_amended [(0, [1]), (1, [])] 1 0 (by decide)).2.1
      (DagErr.dagValidation ValMsg.noRoot) hfst (by decide)).2.1
  · exact (c5_amended [(0, [1]), (1, [])] 0 2 (by decide)).1 (by decide)

/-- Helper: _try_mark_done only touches the future state and the event log. -/
theorem tryMarkDone_frame (s : WState) :
    (tryMarkDone s).tasks = s.tasks
  ∧ (tryMarkDone s).tasksById = s.tasksById
  ∧ (tryMarkDone s).doneTasks = s.doneTasks
  ∧ (tryMarkDone s).queue = s.queue
  ∧ (tryMarkDone s).internalExc = s.internalExc
  ∧ (tryMarkDone s).mustCancel = s.mustCancel
  ∧ (tryMarkDone s).cancelledTasks = s.cancelledTasks
  ∧ (tryMarkDone s).ctorFailures = s.ctorFailures := by
  unfold tryMarkDone
  by_cases h : s.tasks = s.doneTasks ∧ s.result = none
  · rw [if_pos h]
    cases s.internalExc with
    | some e => simp
    | none => cases s.mustCancel <;> simp
  · rw [if_neg h]
    simp

/-- Helper: the full case analysis of _try_mark_done. -/
theorem tryMarkDone_spec (s : WState) :
    tryMarkDone s = s
  ∨ (s.result = none ∧ s.tasks = s.doneTasks ∧
      ((∃ e, s.internalExc = some e ∧
          tryMarkDone s = { s with result := some (WfResult.exception e),
                                   events := s.events ++ [ExecEvent.error] })
      ∨ (s.internalExc = none ∧ s.mustCancel = true ∧
          tryMarkDone s = { s with result := some WfResult.cancelled,
                                   events := s.events ++ [ExecEvent.wfEnd] })
      ∨ (s.internalExc = none ∧ s.mustCancel = false ∧
          tryMarkDone s = { s with result := some (WfResult.finished s.tasks),
                                   events := s.events ++ [ExecEvent.wfEnd] }))) := by
  by_cases h : s.tasks = s.doneTasks ∧ s.result = none
  · right
    refine ⟨h.2, h.1, ?_⟩
    cases hexc : s.internalExc with
    | some e =>
        left
        exact ⟨e, rfl, by unfold tryMarkDone; rw [if_pos h, hexc]⟩
    | none =>
        cases hmc : s.mustCancel with
        | true =>
            right; left
            refine ⟨rfl, rfl, ?_⟩
            unfold tryMarkDone
            rw [if_pos h, hexc]
            simp [hmc]
        | false =>
            right; right
            refine ⟨rfl, rfl, ?_⟩
            unfold tryMarkDone
            rw [if_pos h, hexc]
            simp [hmc]
  · left
    unfold tryMarkDone
    rw [if_neg h]

/-- Helper: a key of the graph belongs to the universe of template ids. -/
theorem key_mem_universe (g : Graph) (n : Nat) (h : n ∈ g.map Prod.fst) :
    n ∈ graphUniverse g := by
  unfold graphUniverse
  exact Finset.mem_union_left _ (List.mem_toFinset.mpr h)

/-- Helper: every member of a successor set belongs to the universe. -/
theorem succ_mem_universe (g : Graph) (t x : Nat) (h : x ∈ lookupSucc g t) :
    x ∈ graphUniverse g := by
  unfold graphUniverse
  apply Finset.mem_union_right
  unfold lookupSucc at h
  cases hf : g.find? (fun e => e.1 == t) with
  | none => rw [hf] at h; cases h
  | some e =>
      rw [hf] at h
      have he : e ∈ g := List.mem_of_find?_eq_some hf
      clear hf
      induction g with
      | nil => cases he
      | cons e2 rest ih =>
          simp only [List.map_cons, List.foldr_cons]
          rcases List.mem_cons.mp he with rfl | he2
          · exact Finset.mem_union_left _ (List.mem_toFinset.mpr h)
          · exact Finset.mem_union_right _ (ih he2)

/-- Helper: a root candidate is a key of the graph. -/
theorem rootsOf_mem_universe (g : Graph) (r : Nat) (h : r ∈ rootsOf g) :
    r ∈ graphUniverse g := by
  apply key_mem_universe
  unfold rootsOf at h
  have := List.mem_filter.mp h
  simpa using this.1

/-- Helper: the filtered next tasks are among the successors. -/
theorem filterNextTasks_subset (succTmpls : List Nat) :
    ∀ ids x, x ∈ filterNextTasks succTmpls ids → x ∈ succTmpls := by
  intro ids
  induction ids with
  | nil => intro x hx; cases hx
  | cons tid rest ih =>
      intro x hx
      unfold filterNextTasks at hx
      by_cases htid : tid ∈ succTmpls
      · rw [if_pos htid] at hx
        rcases List.mem_cons.mp hx with rfl | hx2
        · exact htid
        · exact ih x hx2
      · rw [if_neg htid] at hx
        exact ih x hx

/-- Helper: every template the handler may start lies in the universe. -/
theorem getNext_sub_universe (g : Graph) (s : WState) (t : Nat) :
    ∀ x ∈ getNextTaskTemplates g s t, x ∈ graphUniverse g := by
  intro x hx
  unfold getNextTaskTemplates at hx
  cases hf : s.updatedNextTasks.find? (fun e => e.1 == t) with
  | none =>
      rw [hf] at hx
      exact succ_mem_universe g t x hx
  | some e =>
      rw [hf] at hx
      exact succ_mem_universe g t x (filterNextTasks_subset _ e.2 x hx)

/-- Helper: the successor launch loop does not touch done_tasks, the future
or the cancellation and failure bookkeeping read by _try_mark_done. -/
theorem startNextTasks_frame (beh : Behavior) :
    ∀ l s, (startNextTasks beh s l).doneTasks = s.doneTasks
  ∧ (startNextTasks beh s l).result = s.result := by
  intro l
  induction l with
  | nil => intro s; exact ⟨rfl, rfl⟩
  | cons uid rest ih =>
      intro s
      unfold startNextTasks
      by_cases hmem : uid ∈ s.tasksById
      · rw [if_pos hmem]
        by_cases hdone : taskIsDone s uid = true
        · rw [if_pos hdone]
          exact ih s
        · rw [if_neg hdone]
          exact ih { s with joins := s.joins ++ [uid] }
      · rw [if_neg hmem]
        cases hc : beh.ctorExc uid with
        | none =>
            simp only [newTask, hc]
            exact ih _
        | some e =>
            simp only [newTask, hc]
            by_cases hcaught : caughtAtTaskCreation e = true
            · rw [if_pos hcaught]
              simp [cancelAllTasks]
            · rw [if_neg hcaught]
              exact ⟨rfl, rfl⟩

/-- Helper: the successor launch loop preserves the mid-step invariant when
every id it may start lies in the universe. -/
theorem startNextTasks_mid (beh : Behavior) (g : Graph) :
    ∀ l s, MidInv g s → (∀ x ∈ l, x ∈ graphUniverse g) →
      MidInv g (startNextTasks beh s l) := by
  intro l
  induction l with
  | nil => intro s h _; exact h
  | cons uid rest ih =>
      intro s h hsub
      have hsubrest : ∀ x ∈ rest, x ∈ graphUniverse g :=
        fun x hx => hsub x (List.mem_cons_of_mem uid hx)
      unfold startNextTasks
      by_cases hmem : uid ∈ s.tasksById
      · rw [if_pos hmem]
        by_cases hdone : taskIsDone s uid = true
        · rw [if_pos hdone]
          exact ih s h hsubrest
        · rw [if_neg hdone]
          refine ih _ ?_ hsubrest
          exact { nodup := h.nodup, queueMem := h.queueMem, byId := h.byId,
                  doneSub := h.doneSub, taskSub := h.taskSub,
                  resultNone := h.resultNone, failExc := h.failExc,
                  failCancel := h.failCancel }
      · rw [if_neg hmem]
        have huid : uid ∉ s.tasks := by
          rw [← h.byId]
          exact fun hc => hmem hc
        cases hc : beh.ctorExc uid with
        | none =>
            simp only [newTask, hc]
            refine ih _ ?_ hsubrest
            refine { nodup := ?_, queueMem := ?_, byId := ?_, doneSub := ?_,
                     taskSub := ?_, resultNone := h.resultNone,
                     failExc := h.failExc, failCancel := h.failCancel }
            · have hnq : uid ∉ s.queue := fun hq => huid ((h.queueMem uid).mp hq).1
              simpa [List.nodup_append] using ⟨h.nodup, hnq⟩
            · intro x
              simp only [List.mem_append, List.mem_singleton, Finset.mem_insert]
              constructor
              · rintro (hx | rfl)
                · have := (h.queueMem x).mp hx
                  exact ⟨Or.inr this.1, this.2⟩
                · refine ⟨Or.inl rfl, ?_⟩
                  exact fun hc2 => huid (h.doneSub hc2)
              · rintro ⟨(rfl | hx), hnd⟩
                · right; rfl
                · left; exact (h.queueMem x).mpr ⟨hx, hnd⟩
            · simp only [h.byId]
            · exact Finset.Subset.trans h.doneSub (Finset.subset_insert uid s.tasks)
            · intro x hx
              rcases Finset.mem_insert.mp hx with heq | hx2
              · rw [heq]
                exact hsub uid (List.mem_cons_self uid rest)
              · exact h.taskSub hx2
        | some e =>
            simp only [newTask, hc]
            by_cases hcaught : caughtAtTaskCreation e = true
            · rw [if_pos hcaught]
              refine { nodup := h.nodup, queueMem := h.queueMem, byId := h.byId,
                       doneSub := h.doneSub, taskSub := h.taskSub,
                       resultNone := h.resultNone,
                       failExc := ?_, failCancel := ?_ }
              · intro _
                simp [cancelAllTasks]
              · intro _
                simp [cancelAllTasks]
            · rw [if_neg hcaught]
              refine { nodup := h.nodup, queueMem := h.queueMem, byId := h.byId,
                       doneSub := h.doneSub, taskSub := h.taskSub,
                       resultNone := h.resultNone,
                       failExc := ?_, failCancel := ?_ }
              · rintro ⟨p, hp, hpc⟩
                rcases List.mem_append.mp hp with hp1 | hp2
                · exact h.failExc ⟨p, hp1, hpc⟩
                · have : p = (uid, e) := by simpa using hp2
                  rw [this] at hpc
                  exact absurd hpc hcaught
              · rintro ⟨p, hp, hpc⟩
                rcases List.mem_append.mp hp with hp1 | hp2
                · exact h.failCancel ⟨p, hp1, hpc⟩
                · have : p = (uid, e) := by simpa using hp2
                  rw [this] at hpc
                  exact absurd hpc hcaught

/-- Helper: the final _try_mark_done of a scheduler step restores the full
step invariant from the mid-step invariant. -/
theorem tryMarkDone_end (g : Graph) (m : WState) (h : MidInv g m) :
    EngineInv g (tryMarkDone m) := by
  obtain ⟨hta, hby, hdo, hqu, hie, hmc, hca, hcf⟩ := tryMarkDone_frame m
  rcases tryMarkDone_spec m with heq | ⟨hres, hdone, hcases⟩
  · -- nothing to settle: the future stays pending, so some task is pending
    rw [heq]
    have hne : m.tasks ≠ m.doneTasks := by
      intro hc
      have hset : (tryMarkDone m).result ≠ none := by
        unfold tryMarkDone
        rw [if_pos ⟨hc, h.resultNone⟩]
        cases m.internalExc with
        | some e => simp
        | none => cases m.mustCancel <;> simp
      rw [heq] at hset
      exact hset h.resultNone
    refine { nodup := h.nodup, queueMem := h.queueMem, byId := h.byId,
             doneSub := h.doneSub, taskSub := h.taskSub,
             resultDone := ?_, queueResult := ?_, excResult := ?_,
             errEvent := ?_, finTasks := ?_,
             failExc := h.failExc, failCancel := h.failCancel }
    · intro hc
      exact absurd h.resultNone hc
    · intro hq
      exfalso
      apply hne
      apply Finset.Subset.antisymm
      · intro x hx
        by_contra hnd
        have : x ∈ m.queue := (h.queueMem x).mpr ⟨hx, hnd⟩
        rw [hq] at this
        cases this
      · exact h.doneSub
    · intro r hr
      rw [h.resultNone] at hr
      cases hr
    · intro e2 hr
      rw [h.resultNone] at hr
      cases hr
    · intro ts hr
      rw [h.resultNone] at hr
      cases hr
  · refine { nodup := hqu ▸ h.nodup, queueMem := ?_, byId := ?_,
             doneSub := ?_, taskSub := ?_,
             resultDone := ?_, queueResult := ?_, excResult := ?_,
             errEvent := ?_, finTasks := ?_, failExc := ?_, failCancel := ?_ }
    · intro t
      rw [hqu, hta, hdo]
      exact h.queueMem t
    · rw [hby, hta]
      exact h.byId
    · rw [hdo, hta]
      exact h.doneSub
    · rw [hta]
      exact h.taskSub
    · intro _
      rw [hta, hdo]
      exact hdone
    · intro _
      rcases hcases with ⟨e, _, hupd⟩ | ⟨_, _, hupd⟩ | ⟨_, _, hupd⟩ <;>
        rw [hupd] <;> simp
    · intro r hr hie2
      rcases hcases with ⟨e, hexc, hupd⟩ | ⟨hexc, _, hupd⟩ | ⟨hexc, _, hupd⟩
      · rw [hupd] at hr
        simp only at hr
        exact ⟨e, by injection hr with h2; rw [← h2]⟩
      · rw [hie, hexc] at hie2
        exact absurd rfl hie2
      · rw [hie, hexc] at hie2
        exact absurd rfl hie2
    · intro e2 hr
      rcases hcases with ⟨e, hexc, hupd⟩ | ⟨hexc, hmc2, hupd⟩ | ⟨hexc, hmc2, hupd⟩
      · rw [hupd]
        simp
      · rw [hupd] at hr
        simp only at hr
        cases hr
      · rw [hupd] at hr
        simp only at hr
        cases hr
    · intro ts hr
      rcases hcases with ⟨e, hexc, hupd⟩ | ⟨hexc, hmc2, hupd⟩ | ⟨hexc, hmc2, hupd⟩
      · rw [hupd] at hr
        simp only at hr
        cases hr
      · rw [hupd] at hr
        simp only at hr
        cases hr
      · rw [hupd] at hr ⊢
        simp only at hr
        injection hr with h2
        injection h2 with h3
        simpa using h3.symm
    · intro hexists
      rw [hie]
      exact h.failExc (by rw [hcf] at hexists; exact hexists)
    · intro hexists
      rw [hmc]
      exact h.failCancel (by rw [hcf] at hexists; exact hexists)

/-- Helper: one scheduler step preserves the step invariant. -/
theorem stepW_inv (beh : Behavior) (g : Graph) (s : WState) (h : EngineInv g s) :
    EngineInv g (stepW beh g s) := by
  cases hq : s.queue with
  | nil =>
      unfold stepW
      rw [hq]
      exact h
  | cons t rest =>
      have htmem := (h.queueMem t).mp (by rw [hq]; exact List.mem_cons_self t rest)
      have hres : s.result = none := by
        by_contra hc
        have := h.resultDone hc
        rw [this] at htmem
        exact htmem.2 htmem.1
      have hnodup : rest.Nodup ∧ t ∉ rest := by
        have := h.nodup
        rw [hq] at this
        exact ⟨(List.nodup_cons.mp this).2, (List.nodup_cons.mp this).1⟩
      have hmid : MidInv g (addDone { s with queue := rest } t) := by
        refine { nodup := hnodup.1, queueMem := ?_, byId := h.byId,
                 doneSub := ?_, taskSub := h.taskSub, resultNone := hres,
                 failExc := h.failExc, failCancel := h.failCancel }
        · intro x
          simp only [addDone, Finset.mem_insert]
          constructor
          · intro hx
            have hxq : x ∈ s.queue := by rw [hq]; exact List.mem_cons_of_mem t hx
            have h2 := (h.queueMem x).mp hxq
            refine ⟨h2.1, ?_⟩
            rintro (heq | hc2)
            · rw [heq] at hx
              exact hnodup.2 hx
            · exact h2.2 hc2
          · rintro ⟨hx, hnd⟩
            have hxd : x ∉ s.doneTasks := fun hc => hnd (Or.inr hc)
            have hxq : x ∈ s.queue := (h.queueMem x).mpr ⟨hx, hxd⟩
            rw [hq] at hxq
            rcases List.mem_cons.mp hxq with heq | hx2
            · exact absurd (Or.inl heq) hnd
            · exact hx2
        · intro x hx
          simp only [addDone] at hx
          rcases Finset.mem_insert.mp hx with heq | hx2
          · rw [heq]
            exact htmem.1
          · exact h.doneSub hx2
      unfold stepW
      rw [hq]
      dsimp only
      unfold runNextTasks
      by_cases hmc : (addDone { s with queue := rest } t).mustCancel = true
      · rw [if_pos hmc]
        exact tryMarkDone_end g _ hmid
      · rw [if_neg hmc]
        by_cases hfail : taskFailed beh (addDone { s with queue := rest } t) t = true
        · rw [if_pos hfail]
          exact tryMarkDone_end g _ hmid
        · rw [if_neg hfail]
          apply tryMarkDone_end
          exact startNextTasks_mid beh g _ _ hmid
            (getNext_sub_universe g (addDone { s with queue := rest } t) t)

/-- Helper: one scheduler step settles exactly the head of the queue. -/
theorem stepW_done (beh : Behavior) (g : Graph) (s : WState) (t : Nat)
    (rest : List Nat) (hq : s.queue = t :: rest) :
    (stepW beh g s).doneTasks = insert t s.doneTasks := by
  unfold stepW
  rw [hq]
  dsimp only
  unfold runNextTasks
  by_cases hmc : (addDone { s with queue := rest } t).mustCancel = true
  · rw [if_pos hmc]
    exact (tryMarkDone_frame _).2.2.1
  · rw [if_neg hmc]
    by_cases hfail : taskFailed beh (addDone { s with queue := rest } t) t = true
    · rw [if_pos hfail]
      exact (tryMarkDone_frame _).2.2.1
    · rw [if_neg hfail]
      have h1 := (tryMarkDone_frame (startNextTasks beh (addDone { s with queue := rest } t)
        (getNextTaskTemplates g (addDone { s with queue := rest } t) t))).2.2.1
      rw [h1]
      exact (startNextTasks_frame beh _ _).1

/-- Helper: with enough fuel the event loop drains the queue and keeps the
invariant.  Each step moves one universe element into done_tasks. -/
theorem runLoop_end (beh : Behavior) (g : Graph) :
    ∀ fuel s, EngineInv g s → (graphUniverse g \ s.doneTasks).card ≤ fuel →
      (runLoop beh g fuel s).queue = [] ∧ EngineInv g (runLoop beh g fuel s) := by
  intro fuel
  induction fuel with
  | zero =>
      intro s h hcard
      have hempty : graphUniverse g \ s.doneTasks = ∅ :=
        Finset.card_eq_zero.mp (Nat.le_zero.mp hcard)
      have hq : s.queue = [] := by
        cases hq : s.queue with
        | nil => rfl
        | cons t rest =>
            exfalso
            have htmem := (h.queueMem t).mp (by rw [hq]; exact List.mem_cons_self t rest)
            have : t ∈ graphUniverse g \ s.doneTasks :=
              Finset.mem_sdiff.mpr ⟨h.taskSub htmem.1, htmem.2⟩
            rw [hempty] at this
            cases this
      exact ⟨hq, h⟩
  | succ fuel ih =>
      intro s h hcard
      unfold runLoop
      by_cases hq : s.queue = []
      · rw [if_pos hq]
        exact ⟨hq, h⟩
      · rw [if_neg hq]
        cases hqc : s.queue with
        | nil => exact absurd hqc hq
        | cons t rest =>
            have htmem := (h.queueMem t).mp (by rw [hqc]; exact List.mem_cons_self t rest)
            have hdone := stepW_done beh g s t rest hqc
            have htin : t ∈ graphUniverse g \ s.doneTasks :=
              Finset.mem_sdiff.mpr ⟨h.taskSub htmem.1, htmem.2⟩
            have hsub : graphUniverse g \ (stepW beh g s).doneTasks
                ⊆ graphUniverse g \ s.doneTasks := by
              intro x hx
              rw [hdone] at hx
              rcases Finset.mem_sdiff.mp hx with ⟨hx1, hx2⟩
              exact Finset.mem_sdiff.mpr
                ⟨hx1, fun hc => hx2 (Finset.mem_insert_of_mem hc)⟩
            have hnotin : t ∉ graphUniverse g \ (stepW beh g s).doneTasks := by
              rw [hdone]
              intro hc
              exact (Finset.mem_sdiff.mp hc).2 (Finset.mem_insert_self t _)
            have hlt : (graphUniverse g \ (stepW beh g s).doneTasks).card
                < (graphUniverse g \ s.doneTasks).card := by
              apply Finset.card_lt_card
              rw [Finset.ssubset_iff_of_subset hsub]
              exact ⟨t, htin, hnotin⟩
            have hcard2 : (graphUniverse g \ (stepW beh g s).doneTasks).card ≤ fuel := by
              omega
            exact ih (stepW beh g s) (stepW_inv beh g s h) hcard2

/-- Helper: a successful Workflow.run on a fresh workflow establishes the
step invariant. -/
theorem runWf_inv (beh : Behavior) (g : Graph) (s1 : WState) (x : Option Nat)
    (h : runWf beh g initState = Except.ok (s1, x)) : EngineInv g s1 := by
  unfold runWf at h
  rw [if_neg (by simp [initState])] at h
  cases hroot : templateRoot g with
  | error e =>
      rw [hroot] at h
      cases e with
      | rootTaskError =>
          dsimp only at h
          injection h with h2
          injection h2 with h3 _
          rw [← h3]
          apply tryMarkDone_end
          refine { nodup := List.nodup_nil, queueMem := ?_, byId := rfl,
                   doneSub := ?_, taskSub := ?_, resultNone := rfl,
                   failExc := ?_, failCancel := ?_ }
          · intro t
            simp [initState]
          · intro y hy
            simp [initState] at hy
          · intro y hy
            simp [initState] at hy
          · rintro ⟨p, hp, _⟩
            simp [initState] at hp
          · rintro ⟨p, hp, _⟩
            simp [initState] at hp
      | unknownTaskName => dsimp only at h; cases h
      | typeError => dsimp only at h; cases h
      | valueError => dsimp only at h; cases h
      | attributeError => dsimp only at h; cases h
      | keyError => dsimp only at h; cases h
      | runtimeError => dsimp only at h; cases h
      | dagValidationError => dsimp only at h; cases h
  | ok root =>
      rw [hroot] at h
      dsimp only at h
      have hrootuniv : root ∈ graphUniverse g := by
        unfold templateRoot at hroot
        cases hr : root_nodes g with
        | error e => rw [hr] at hroot; cases hroot
        | ok roots =>
            rw [hr] at hroot
            have hmem : root ∈ roots := by
              cases roots with
              | nil => cases hroot
              | cons a l =>
                  cases l with
                  | nil =>
                      dsimp only at hroot
                      injection hroot with h2
                      rw [← h2]
                      exact List.mem_cons_self a []
                  | cons b l2 => dsimp only at hroot; cases hroot
            have hrof : root ∈ rootsOf g := by
              unfold root_nodes at hr
              by_cases hempty : (rootsOf g).isEmpty = true
              · rw [if_pos hempty] at hr; cases hr
              · rw [if_neg hempty] at hr
                injection hr with h2
                rw [← h2] at hmem
                exact hmem
            exact rootsOf_mem_universe g root hrof
      cases hc : beh.ctorExc root with
      | none =>
          simp only [newTask, hc] at h
          injection h with h2
          injection h2 with h3 _
          rw [← h3]
          refine { nodup := List.nodup_singleton root, queueMem := ?_, byId := ?_,
                   doneSub := ?_, taskSub := ?_, resultDone := ?_,
                   queueResult := ?_, excResult := ?_, errEvent := ?_,
                   finTasks := ?_, failExc := ?_, failCancel := ?_ }
          · intro t
            simp [initState]
          · simp [initState]
          · intro y hy
            simp [initState] at hy
          · intro y hy
            simp only [initState] at hy
            simp only [Finset.mem_insert, Finset.not_mem_empty, or_false] at hy
            rw [hy]
            exact hrootuniv
          · intro hc2
            exact absurd rfl hc2
          · intro hq
            cases hq
          · intro r hr
            cases hr
          · intro e2 hr
            cases hr
          · intro ts hr
            cases hr
          · rintro ⟨p, hp, _⟩
            simp [initState] at hp
          · rintro ⟨p, hp, _⟩
            simp [initState] at hp
      | some e =>
          simp only [newTask, hc] at h
          by_cases hcaught : caughtAtTaskCreation e = true
          · rw [if_pos hcaught] at h
            injection h with h2
            injection h2 with h3 _
            rw [← h3]
            apply tryMarkDone_end
            refine { nodup := List.nodup_nil, queueMem := ?_, byId := ?_,
                     doneSub := ?_, taskSub := ?_, resultNone := ?_,
                     failExc := ?_, failCancel := ?_ }
            · intro t
              simp [cancelAllTasks, initState]
            · simp [cancelAllTasks, initState]
            · intro y hy
              simp [cancelAllTasks, initState] at hy
            · intro y hy
              simp [cancelAllTasks, initState] at hy
            · simp [cancelAllTasks, initState]
            · intro _
              simp [cancelAllTasks, initState]
            · intro _
              simp [cancelAllTasks, initState]
          · rw [if_neg hcaught] at h
            cases h

/-- Claim C2, amended: when creating a new task fails with one of the
exception classes _new_task catches (UnknownTaskName, TypeError, ValueError,
AttributeError), the engine records the failure as the internal workflow
exception, sets must-cancel and requests cancellation of every pending
task; and every complete run in which such a caught creation failure
happened ends with terminal state exception and a workflow-error event
dispatched.  (A constructor raising any other class, e.g. KeyError, takes
none of these steps: see the counterexample.) -/
theorem c2_amended :
    (∀ (beh : Behavior) (s : WState) (uid : Nat) (e : Exc),
        beh.ctorExc uid = some e → caughtAtTaskCreation e = true →
          ∃ s2, newTask beh s uid = NewTaskResult.failedCaught s2
            ∧ s2.internalExc = some e
            ∧ s2.mustCancel = true
            ∧ s.tasks \ s.doneTasks ⊆ s2.cancelledTasks
            ∧ s2.ctorFailures = s.ctorFailures ++ [(uid, e)])
  ∧ (∀ (beh : Behavior) (g : Graph) (w : WState),
        runWorkflowE beh g = Except.ok w →
        (∃ p ∈ w.ctorFailures, caughtAtTaskCreation p.2 = true) →
          (∃ e2, w.result = some (WfResult.exception e2))
        ∧ ExecEvent.error ∈ w.events
        ∧ w.mustCancel = true) := by
  constructor
  · intro beh s uid e hc hcaught
    have hs2 : newTask beh s uid = NewTaskResult.failedCaught
        (cancelAllTasks
          { { s with ctorFailures := s.ctorFailures ++ [(uid, e)] }
            with internalExc := some e }).1 := by
      simp only [newTask, hc, if_pos hcaught]
    refine ⟨_, hs2, ?_, ?_, ?_, ?_⟩
    · simp [cancelAllTasks]
    · simp [cancelAllTasks]
    · intro p hp
      simp only [cancelAllTasks]
      simp only [Finset.mem_union, Finset.mem_sdiff]
      by_cases hpc : p ∈ s.cancelledTasks
      · left
        exact hpc
      · right
        exact ⟨by simpa using Finset.mem_sdiff.mp hp, hpc⟩
    · simp [cancelAllTasks]
  · intro beh g w hrun hfail
    unfold runWorkflowE at hrun
    cases hrw : runWf beh g initState with
    | error e => rw [hrw] at hrun; cases hrun
    | ok p =>
        rw [hrw] at hrun
        dsimp only at hrun
        injection hrun with h2
        have hinv1 : EngineInv g p.1 := runWf_inv beh g p.1 p.2 (by rw [hrw])
        have hcard : (graphUniverse g \ p.1.doneTasks).card ≤ (graphUniverse g).card :=
          Finset.card_le_card Finset.sdiff_subset
        obtain ⟨hq, hinv⟩ := runLoop_end beh g (graphUniverse g).card p.1 hinv1 hcard
        rw [h2] at hq hinv
        have hres : w.result ≠ none := hinv.queueResult hq
        have hie : w.internalExc ≠ none := hinv.failExc hfail
        cases hr : w.result with
        | none => exact absurd hr hres
        | some r =>
            obtain ⟨e2, he2⟩ := hinv.excResult r hr hie
            have hr2 : w.result = some (WfResult.exception e2) := by
              rw [hr, he2]
            exact ⟨⟨e2, by rw [he2]⟩, hinv.errEvent e2 hr2, hinv.failCancel hfail⟩

/-- Helper: when no constructor fails, the successor launch loop touches
neither the failure bookkeeping nor the future. -/
theorem startNextTasks_clean_frame (beh : Behavior)
    (hctor : ∀ u, beh.ctorExc u = none) :
    ∀ l s, (startNextTasks beh s l).internalExc = s.internalExc
  ∧ (startNextTasks beh s l).mustCancel = s.mustCancel
  ∧ (startNextTasks beh s l).cancelledTasks = s.cancelledTasks
  ∧ (startNextTasks beh s l).result = s.result := by
  intro l
  induction l with
  | nil => intro s; exact ⟨rfl, rfl, rfl, rfl⟩
  | cons uid rest ih =>
      intro s
      unfold startNextTasks
      by_cases hmem : uid ∈ s.tasksById
      · rw [if_pos hmem]
        by_cases hdone : taskIsDone s uid = true
        · rw [if_pos hdone]
          exact ih s
        · rw [if_neg hdone]
          exact ih { s with joins := s.joins ++ [uid] }
      · rw [if_neg hmem]
        simp only [newTask, hctor uid]
        exact ih _

/-- Helper: _try_mark_done keeps a clean run clean: with no internal
exception and no cancellation the only terminal it can install is
finished. -/
theorem tryMarkDone_clean (s : WState) (h : CleanSt s) : CleanSt (tryMarkDone s) := by
  obtain ⟨hie, hmc, hca, hres⟩ := h
  obtain ⟨_, _, _, _, hie2, hmc2, hca2, _⟩ := tryMarkDone_frame s
  refine ⟨by rw [hie2, hie], by rw [hmc2, hmc], by rw [hca2, hca], ?_⟩
  intro r hr
  rcases tryMarkDone_spec s with heq | ⟨_, _, hcases⟩
  · rw [heq] at hr
    exact hres r hr
  · rcases hcases with ⟨e, hexc, _⟩ | ⟨_, hmc3, _⟩ | ⟨_, _, hupd⟩
    · rw [hie] at hexc
      cases hexc
    · rw [hmc] at hmc3
      cases hmc3
    · rw [hupd] at hr
      simp only at hr
      injection hr with h2
      exact ⟨s.tasks, h2.symm⟩

/-- Helper: a scheduler step keeps a clean run clean. -/
theorem stepW_clean (beh : Behavior) (g : Graph)
    (hctor : ∀ u, beh.ctorExc u = none) (s : WState) (h : CleanSt s) :
    CleanSt (stepW beh g s) := by
  cases hq : s.queue with
  | nil =>
      unfold stepW
      rw [hq]
      exact h
  | cons t rest =>
      obtain ⟨hie, hmc, hca, hres⟩ := h
      have hclean2 : CleanSt (addDone { s with queue := rest } t) :=
        ⟨hie, hmc, hca, fun r hr => hres r hr⟩
      unfold stepW
      rw [hq]
      dsimp only
      unfold runNextTasks
      by_cases hmc2 : (addDone { s with queue := rest } t).mustCancel = true
      · rw [if_pos hmc2]
        exact tryMarkDone_clean _ hclean2
      · rw [if_neg hmc2]
        by_cases hfail : taskFailed beh (addDone { s with queue := rest } t) t = true
        · rw [if_pos hfail]
          exact tryMarkDone_clean _ hclean2
        · rw [if_neg hfail]
          apply tryMarkDone_clean
          obtain ⟨h1, h2, h3, h4⟩ := startNextTasks_clean_frame beh hctor
            (getNextTaskTemplates g (addDone { s with queue := rest } t) t)
            (addDone { s with queue := rest } t)
          exact ⟨by rw [h1]; exact hie, by rw [h2]; exact hmc,
                 by rw [h3]; exact hca, fun r hr => hres r (h4.symm.trans hr)⟩

/-- Helper: the event loop keeps a clean run clean. -/
theorem runLoop_clean (beh : Behavior) (g : Graph)
    (hctor : ∀ u, beh.ctorExc u = none) :
    ∀ fuel s, CleanSt s → CleanSt (runLoop beh g fuel s) := by
  intro fuel
  induction fuel with
  | zero => intro s h; exact h
  | succ fuel ih =>
      intro s h
      unfold runLoop
      by_cases hq : s.queue = []
      · rw [if_pos hq]
        exact h
      · rw [if_neg hq]
        exact ih (stepW beh g s) (stepW_clean beh g hctor s h)

/-- Claim C4: when the body of a started task raises (or the task was
cancelled), its completion handler adds it to done_tasks and goes straight
to finalization: no successor is started from it and nothing else in the
workflow state is touched, so every other branch continues unaffected; and
a whole run without internal engine failures (every constructor succeeds,
nothing cancels) still terminates finished, with the set of started tasks
as result, whatever task bodies raised. -/
theorem c4_failed_task_pruned :
    (∀ (beh : Behavior) (g : Graph) (s : WState) (t : Nat),
        beh.bodyOk t = false →
          runNextTasks beh g s t = tryMarkDone (addDone s t))
  ∧ (∀ (beh : Behavior) (g : Graph) (root : Nat),
        (∀ u, beh.ctorExc u = none) → templateRoot g = Except.ok root →
          ∃ w, runWorkflowE beh g = Except.ok w
            ∧ w.result = some (WfResult.finished w.tasks)) := by
  constructor
  · intro beh g s t hbody
    unfold runNextTasks
    by_cases hmc : (addDone s t).mustCancel = true
    · rw [if_pos hmc]
    · rw [if_neg hmc]
      have hfail : taskFailed beh (addDone s t) t = true := by
        simp [taskFailed, hbody]
      rw [if_pos hfail]
  · intro beh g root hctor hroot
    unfold runWorkflowE
    cases hrw : runWf beh g initState with
    | error e =>
        exfalso
        unfold runWf at hrw
        rw [if_neg (by simp [initState]), hroot] at hrw
        dsimp only at hrw
        simp only [newTask, hctor root] at hrw
        cases hrw
    | ok p =>
        refine ⟨runLoop beh g (graphUniverse g).card p.1, rfl, ?_⟩
        have hinv1 : EngineInv g p.1 := runWf_inv beh g p.1 p.2 hrw
        have hclean1 : CleanSt p.1 := by
          unfold runWf at hrw
          rw [if_neg (by simp [initState]), hroot] at hrw
          dsimp only at hrw
          simp only [newTask, hctor root] at hrw
          injection hrw with h3
          rw [← h3]
          refine ⟨rfl, rfl, rfl, ?_⟩
          intro r hr
          simp [initState] at hr
        have hcard : (graphUniverse g \ p.1.doneTasks).card ≤ (graphUniverse g).card :=
          Finset.card_le_card Finset.sdiff_subset
        obtain ⟨hq, hinv⟩ := runLoop_end beh g (graphUniverse g).card p.1 hinv1 hcard
        have hclean := runLoop_clean beh g hctor (graphUniverse g).card p.1 hclean1
        have hresne := hinv.queueResult hq
        cases hr : (runLoop beh g (graphUniverse g).card p.1).result with
        | none => exact absurd hr hresne
        | some r =>
            obtain ⟨ts, hts⟩ := hclean.2.2.2 r hr
            have hts2 := hinv.finTasks ts (by rw [hr, hts])
            rw [hts, hts2]

/-- Helper: a successful add_edge returns a graph that passed validate. -/
theorem add_edge_ok_valid (g g2 : Graph) (u v : Nat)
    (h : add_edge g u v = (none, g2)) : is_valid g2 = true := by
  unfold add_edge at h
  by_cases hk : (hasKey g u && hasKey g v) = true
  · rw [if_pos hk] at h
    cases hval : validate (updSucc g u (fun s => setAdd s v)) with
    | ok a =>
        rw [hval] at h
        injection h with _ h2
        unfold is_valid
        rw [← h2]
        cases a
        rw [hval]
    | error e =>
        rw [hval] at h
        injection h with h1 _
        cases h1
  · rw [if_neg hk] at h
    injection h with h1 _
    cases h1

/-- Helper: in a graph with no edges every successor read is empty. -/
theorem lookupSucc_allSuccEmpty (g : Graph) (h : allSuccEmpty g = true) (n : Nat) :
    lookupSucc g n = [] := by
  unfold lookupSucc
  cases hf : g.find? (fun e => e.1 == n) with
  | none => rfl
  | some e =>
      have he : e ∈ g := List.mem_of_find?_eq_some hf
      unfold allSuccEmpty at h
      have := List.all_eq_true.mp h e he
      simpa using this

/-- Helper: the Kahn loop leaves an edge-free graph untouched. -/
theorem kahnLoop_allSuccEmpty (g : Graph) (h : allSuccEmpty g = true) :
    ∀ fuel roots acc, (kahnLoop fuel g roots acc).1 = g := by
  intro fuel
  induction fuel with
  | zero => intro roots acc; rfl
  | succ fuel ih =>
      intro roots acc
      cases roots with
      | nil => rfl
      | cons r rest =>
          unfold kahnLoop
          have hdrop : dropEdges g r = (g, []) := by
            unfold dropEdges
            rw [lookupSucc_allSuccEmpty g h r]
            rfl
          rw [hdrop]
          exact ih (rest ++ []) (acc ++ [r])

/-- Helper: an edge-free graph has an empty edge list. -/
theorem edgesList_allSuccEmpty (g : Graph) (h : allSuccEmpty g = true) :
    edgesList g = [] := by
  induction g with
  | nil => rfl
  | cons e rest ih =>
      unfold allSuccEmpty at h ih
      simp only [List.all_cons, Bool.and_eq_true] at h
      unfold edgesList
      rw [ih h.2]
      have : e.2 = [] := by simpa using h.1
      rw [this]
      rfl

/-- Helper: an edge-free graph has no cycle. -/
theorem noCycle_allSuccEmpty (g : Graph) (h : allSuccEmpty g = true) :
    noCycle g = true := by
  unfold noCycle
  rw [kahnLoop_allSuccEmpty g h, edgesList_allSuccEmpty g h]
  rfl

/-- Helper: a graph that passes validate has no cycle: its toposort run
consumes every edge. -/
theorem valid_noCycle (g : Graph) (h : is_valid g = true) : noCycle g = true := by
  have hval := (isValid_iff g).mp h
  unfold validate at hval
  cases hr : root_nodes g with
  | error e => rw [hr] at hval; cases hval
  | ok roots =>
      rw [hr] at hval
      cases ht : toposort g with
      | error e => rw [ht] at hval; cases hval
      | ok sorted =>
          unfold toposort at ht
          rw [hr] at ht
          dsimp only at ht
          by_cases hedges : (edgesList (kahnLoop (kahnFuel g) g roots []).1).isEmpty = true
          · have hroots : roots = rootsOf g := by
              unfold root_nodes at hr
              by_cases hempty : (rootsOf g).isEmpty = true
              · rw [if_pos hempty] at hr; cases hr
              · rw [if_neg hempty] at hr
                injection hr with h2
                exact h2.symm
            unfold noCycle
            rw [← hroots]
            exact hedges
          · rw [if_neg hedges] at ht
            cases ht

/-- Helper: the tasks pass of from_dict only creates isolated nodes. -/
theorem addTaskNodes_allSuccEmpty :
    ∀ (tds : List TaskDict) (idx : Nat) (g : Graph) (tids : List (Nat × Nat))
      (g2 : Graph) (tids2 : List (Nat × Nat)),
      addTaskNodes tds idx g tids = Except.ok (g2, tids2) →
      allSuccEmpty g = true → allSuccEmpty g2 = true := by
  intro tds
  induction tds with
  | nil =>
      intro idx g tids g2 tids2 h hg
      unfold addTaskNodes at h
      injection h with h2
      injection h2 with h3 _
      rw [← h3]
      exact hg
  | cons td rest ih =>
      intro idx g tids g2 tids2 h hg
      unfold addTaskNodes at h
      cases han : add_node g idx with
      | error e => rw [han] at h; cases h
      | ok g3 =>
          rw [han] at h
          have hg3 : g3 = g ++ [(idx, [])] := by
            unfold add_node at han
            by_cases hk : hasKey g idx = true
            · rw [if_pos hk] at han; cases han
            · rw [if_neg hk] at han
              injection han with h2
              exact h2.symm
          refine ih (idx + 1) g3 (dictUpd tids td.id idx) g2 tids2 h ?_
          rw [hg3]
          unfold allSuccEmpty at hg ⊢
          rw [List.all_append]
          simp [hg]

/-- Helper: a successful inner edge pass returns the input graph or the
output of a successful add_edge. -/
theorem linkTasks_ok :
    ∀ (ds : List Nat) (g : Graph) (tids : List (Nat × Nat)) (ui : Nat) (g2 : Graph),
      linkTasks g tids ui ds = Except.ok g2 →
      g2 = g ∨ ∃ gp a b, add_edge gp a b = (none, g2) := by
  intro ds
  induction ds with
  | nil =>
      intro g tids ui g2 h
      unfold linkTasks at h
      injection h with h2
      exact Or.inl h2.symm
  | cons d rest ih =>
      intro g tids ui g2 h
      unfold linkTasks at h
      cases hd : dictGet tids d with
      | none => rw [hd] at h; cases h
      | some di =>
          rw [hd] at h
          dsimp only at h
          cases hae : add_edge g ui di with
          | mk fst snd =>
              rw [hae] at h
              cases fst with
              | some e => dsimp only at h; cases h
              | none =>
                  dsimp only at h
                  rcases ih snd tids ui g2 h with heq | hex
                  · right
                    exact ⟨g, ui, di, by rw [hae, heq]⟩
                  · right
                    exact hex

/-- Helper: a successful graph pass returns the input graph or the output
of a successful add_edge. -/
theorem linkGraph_ok :
    ∀ (entries : List (Nat × List Nat)) (g : Graph) (tids : List (Nat × Nat)) (g2 : Graph),
      linkGraph g tids entries = Except.ok g2 →
      g2 = g ∨ ∃ gp a b, add_edge gp a b = (none, g2) := by
  intro entries
  induction entries with
  | nil =>
      intro g tids g2 h
      unfold linkGraph at h
      injection h with h2
      exact Or.inl h2.symm
  | cons entry rest ih =>
      intro g tids g2 h
      unfold linkGraph at h
      cases hd : dictGet tids entry.1 with
      | none => rw [hd] at h; cases h
      | some ui =>
          rw [hd] at h
          dsimp only at h
          cases hlt : linkTasks g tids ui entry.2 with
          | error e => rw [hlt] at h; cases h
          | ok g3 =>
              rw [hlt] at h
              rcases ih g3 tids g2 h with heq | hex
              · rw [heq]
                exact linkTasks_ok entry.2 g tids ui g3 hlt
              · exact Or.inr hex

/-- Claim C6, amended: for every dictionary on which
WorkflowTemplate.from_dict returns without raising, the resulting template
DAG contains no cycle.  It need not have exactly one root: from_dict never
calls validate(), the only place where the single-root constraint is
checked (see the counterexample with two roots). -/
theorem c6_amended (w : WfDict) (t : WorkflowTmpl)
    (h : wtFromDict w = Except.ok t) : noCycle t.dagGraph = true := by
  unfold wtFromDict at h
  cases ha : addTaskNodes w.tasks 0 [] [] with
  | error e => rw [ha] at h; cases h
  | ok p =>
      rw [ha] at h
      dsimp only at h
      cases hl : linkGraph p.1 p.2 w.graph with
      | error e => rw [hl] at h; cases h
      | ok g2 =>
          rw [hl] at h
          injection h with h2
          have hdag : t.dagGraph = g2 := by rw [← h2]
          have hempty : allSuccEmpty p.1 = true :=
            addTaskNodes_allSuccEmpty w.tasks 0 [] [] p.1 p.2
              (by rw [ha]) rfl
          rw [hdag]
          rcases linkGraph_ok w.graph p.1 p.2 g2 hl with heq | ⟨gp, a, b, hae⟩
          · rw [heq]
            exact noCycle_allSuccEmpty p.1 hempty
          · exact valid_noCycle g2 (add_edge_ok_valid gp g2 a b hae)

/-- Claim C6, witness: the amended theorem applied to the declarative dict
of the test template ok (a diamond over four tasks): the DAG from_dict
builds for it has no cycle. -/
theorem c6_witness :
    noCycle [(0, [1, 2]), (1, [3]), (2, []), (3, [])] = true :=
  c6_amended okWfDict
    { dagGraph := [(0, [1, 2]), (1, [3]), (2, []), (3, [])],
      taskIds := [(1, 0), (2, 1), (3, 2), (4, 3)] }
    (by decide)
